import Mathlib

/-!
Verification of the UTASTAR core (`src/algorithms/utastar.py`) against its
natural-language specification.

The Python source is shallowly embedded over `ℚ` (the source works with
Python/numpy floats; all the arithmetic the claims depend on is exact
rational arithmetic, and `np.linspace` breakpoints are embedded as the
exact affine formula it computes).  Fallible Python code (code that can
raise) is embedded as `Except PyError`; the constructors of `PyError`
mirror the exception classes the source raises.
-/

namespace Utastar

/-- Exception classes raised by the source.  `typeError`, `valueError`,
`indexError`, `keyError` are the Python builtins; `linearProgramError` is
the module's own `LinearProgramError`. -/
inductive PyError where
  | typeError
  | valueError
  | indexError
  | keyError
  | linearProgramError
deriving DecidableEq

/-- Source `Interval(left, right, num_of_subintervals)`: endpoints
plus the number `N` of subintervals.  The `points` attribute
(`np.linspace(left, right, N+1)`) is recovered by `Interval.pts`, and the
`subintervals` tuple by `Interval.sub`.  (For `left = right` the Python
constructor leaves integer placeholders in `subintervals` and `get_value`
would fail on attribute access; theorems about `get_value` therefore carry
the data-model invariant `left ≠ right`.) -/
structure Interval where
  left : ℚ
  right : ℚ
  N : ℕ
deriving DecidableEq

namespace Interval

/-- The `j`-th breakpoint produced by `np.linspace(left, right, N+1)`:
`left + j * (right - left) / N`. -/
def pts (iv : Interval) (j : ℕ) : ℚ := iv.left + j * ((iv.right - iv.left) / iv.N)

/-- The `i`-th subinterval, as its `(left, right)` endpoint pair. -/
def sub (iv : Interval) (i : ℕ) : ℚ × ℚ := (iv.pts i, iv.pts (i + 1))

end Interval

/-- Source `Subinterval.__contains__`: membership is inclusive on both endpoints,
oriented by the subinterval's own monotonicity (`right > left`). -/
def Subinterval.mem (p : ℚ × ℚ) (v : ℚ) : Prop :=
  (p.1 < p.2 ∧ p.1 ≤ v ∧ v ≤ p.2) ∨ (¬ p.1 < p.2 ∧ p.2 ≤ v ∧ v ≤ p.1)

instance (p : ℚ × ℚ) (v : ℚ) : Decidable (Subinterval.mem p v) := by
  unfold Subinterval.mem; infer_instance

/-- Source `Subinterval.isedge`: `v` equals either endpoint. -/
def Subinterval.isedge (p : ℚ × ℚ) (v : ℚ) : Prop := p.1 = v ∨ p.2 = v

instance (p : ℚ × ℚ) (v : ℚ) : Decidable (Subinterval.isedge p v) := by
  unfold Subinterval.isedge; infer_instance

/-- The disjunction of the three branch guards of the scan loop in
`Criterion.get_value`: the loop breaks at the first index where one of
them holds. -/
def hit (iv : Interval) (v : ℚ) (i : ℕ) : Prop :=
  (i = 0 ∧ (iv.sub 0).1 = v) ∨ Subinterval.isedge (iv.sub i) v ∨ Subinterval.mem (iv.sub i) v

instance (iv : Interval) (v : ℚ) (i : ℕ) : Decidable (hit iv v i) := by
  unfold hit; infer_instance

/-- First index `≥ start` (within `fuel` steps) satisfying `p`; models the
`for ... break` scan of `get_value`. -/
def firstHit (p : ℕ → Prop) [DecidablePred p] : ℕ → ℕ → Option ℕ
  | _, 0 => none
  | i, fuel + 1 => if p i then some i else firstHit p (i + 1) fuel

/-- The `weights_array` written by the loop body of `get_value` when the
loop breaks at index `i` (branch priority as in the source: the
index-0/left-edge test first, then `isedge`, then membership). -/
def outAt (iv : Interval) (v : ℚ) (i : ℕ) : List ℚ :=
  if i = 0 ∧ (iv.sub 0).1 = v then
    List.replicate iv.N 0
  else if Subinterval.isedge (iv.sub i) v then
    List.ofFn fun j : Fin iv.N => if (j : ℕ) ≤ i then 1 else 0
  else
    List.ofFn fun j : Fin iv.N =>
      if (j : ℕ) < i then 1
      else if (j : ℕ) = i then (v - (iv.sub i).1) / ((iv.sub i).2 - (iv.sub i).1)
      else 0

/-- The basis-coefficient vector computed by the scan loop of
`Criterion.get_value` (after the validation guards). -/
def beta (iv : Interval) (v : ℚ) : List ℚ :=
  match firstHit (hit iv v) 0 iv.N with
  | none => List.replicate iv.N 0
  | some i => outAt iv v i

/-- Source `Criterion.get_value`: validates the value (negative values raise
`ValueError`; non-numeric values would raise `TypeError`, a case excluded
here by the type of `v`), then runs the scan loop. -/
def get_value (iv : Interval) (v : ℚ) : Except PyError (List ℚ) :=
  if 0 ≤ v then .ok (beta iv v) else .error .valueError

/-! ### Breakpoint arithmetic -/

namespace Interval

theorem pts_zero (iv : Interval) : iv.pts 0 = iv.left := by
  simp [pts]

theorem pts_top (iv : Interval) (hN : iv.N ≠ 0) : iv.pts iv.N = iv.right := by
  have h : (iv.N : ℚ) ≠ 0 := Nat.cast_ne_zero.mpr hN
  field_simp [pts]

theorem pts_sub_pts (iv : Interval) (i j : ℕ) :
    iv.pts j - iv.pts i = ((j : ℚ) - (i : ℚ)) * ((iv.right - iv.left) / iv.N) := by
  simp [pts]; ring

theorem step_pos_asc (iv : Interval) (hN : 0 < iv.N) (h : iv.left < iv.right) :
    0 < (iv.right - iv.left) / iv.N :=
  div_pos (by linarith) (by exact_mod_cast hN)

theorem step_neg_desc (iv : Interval) (hN : 0 < iv.N) (h : iv.right < iv.left) :
    (iv.right - iv.left) / iv.N < 0 :=
  div_neg_of_neg_of_pos (by linarith) (by exact_mod_cast hN)

theorem pts_lt_asc (iv : Interval) (hN : 0 < iv.N) (h : iv.left < iv.right)
    {i j : ℕ} (hij : i < j) : iv.pts i < iv.pts j := by
  have hd := iv.step_pos_asc hN h
  have hc : (0 : ℚ) < (j : ℚ) - (i : ℚ) := by
    have : (i : ℚ) < (j : ℚ) := by exact_mod_cast hij
    linarith
  nlinarith [iv.pts_sub_pts i j]

theorem pts_le_asc (iv : Interval) (hN : 0 < iv.N) (h : iv.left < iv.right)
    {i j : ℕ} (hij : i ≤ j) : iv.pts i ≤ iv.pts j := by
  rcases Nat.lt_or_ge i j with h' | h'
  · exact le_of_lt (iv.pts_lt_asc hN h h')
  · have : i = j := le_antisymm hij h'
    simp [this]

theorem pts_lt_desc (iv : Interval) (hN : 0 < iv.N) (h : iv.right < iv.left)
    {i j : ℕ} (hij : i < j) : iv.pts j < iv.pts i := by
  have hd := iv.step_neg_desc hN h
  have hc : (0 : ℚ) < (j : ℚ) - (i : ℚ) := by
    have : (i : ℚ) < (j : ℚ) := by exact_mod_cast hij
    linarith
  nlinarith [iv.pts_sub_pts i j]

theorem pts_le_desc (iv : Interval) (hN : 0 < iv.N) (h : iv.right < iv.left)
    {i j : ℕ} (hij : i ≤ j) : iv.pts j ≤ iv.pts i := by
  rcases Nat.lt_or_ge i j with h' | h'
  · exact le_of_lt (iv.pts_lt_desc hN h h')
  · have : i = j := le_antisymm hij h'
    simp [this]

end Interval

/-! ### The scan loop -/

theorem firstHit_some (p : ℕ → Prop) [DecidablePred p] :
    ∀ (fuel start k : ℕ), start ≤ k → k < start + fuel → p k →
      (∀ j, start ≤ j → j < k → ¬ p j) → firstHit p start fuel = some k := by
  intro fuel
  induction fuel with
  | zero => intro start k h1 h2; omega
  | succ n ih =>
    intro start k h1 h2 hk hbefore
    by_cases hs : p start
    · have heq : start = k := by
        by_contra hne
        exact hbefore start le_rfl (lt_of_le_of_ne h1 hne) hs
      subst heq
      simp only [firstHit, if_pos hs]
    · have h1' : start + 1 ≤ k := by
        rcases Nat.eq_or_lt_of_le h1 with h | h
        · exact absurd (h ▸ hk) hs
        · omega
      simp only [firstHit, if_neg hs]
      exact ih (start + 1) k h1' (by omega) hk fun j hj1 hj2 => hbefore j (by omega) hj2

theorem firstHit_none (p : ℕ → Prop) [DecidablePred p] :
    ∀ (fuel start : ℕ), (∀ j, start ≤ j → j < start + fuel → ¬ p j) →
      firstHit p start fuel = none := by
  intro fuel
  induction fuel with
  | zero => intro start _; rfl
  | succ n ih =>
    intro start h
    have hs : ¬ p start := h start le_rfl (by omega)
    simp only [firstHit, if_neg hs]
    exact ih (start + 1) fun j hj1 hj2 => h j (by omega) (by omega)

/-- No loop guard can fire at an index `i < k` when (ascending case) the
value lies strictly above breakpoint `k`. -/
theorem no_hit_above_asc (iv : Interval) (hN : 0 < iv.N) (h : iv.left < iv.right)
    {v : ℚ} {k : ℕ} (hv : iv.pts k < v) :
    ∀ i, i < k → ¬ hit iv v i := by
  intro i hik hhit
  have hip1 : iv.pts (i + 1) ≤ iv.pts k := iv.pts_le_asc hN h (by omega)
  have hi : iv.pts i < iv.pts (i + 1) := iv.pts_lt_asc hN h (by omega)
  have h0 : iv.pts 0 ≤ iv.pts k := iv.pts_le_asc hN h (by omega)
  rcases hhit with ⟨_, he⟩ | he | hm
  · rw [Interval.sub, Interval.pts_zero] at he
    have := iv.pts_zero ▸ h0
    linarith
  · rcases he with he | he <;> rw [Interval.sub] at he <;> simp at he <;> linarith
  · rcases hm with ⟨_, _, hv2⟩ | ⟨hmono, _⟩
    · rw [Interval.sub] at hv2; simp at hv2; linarith
    · rw [Interval.sub] at hmono; simp at hmono; linarith

/-- No loop guard can fire at an index `i < k` when (descending case) the
value lies strictly below breakpoint `k`. -/
theorem no_hit_below_desc (iv : Interval) (hN : 0 < iv.N) (h : iv.right < iv.left)
    {v : ℚ} {k : ℕ} (hv : v < iv.pts k) :
    ∀ i, i < k → ¬ hit iv v i := by
  intro i hik hhit
  have hip1 : iv.pts k ≤ iv.pts (i + 1) := iv.pts_le_desc hN h (by omega)
  have hi : iv.pts (i + 1) < iv.pts i := iv.pts_lt_desc hN h (by omega)
  have h0 : iv.pts k ≤ iv.pts 0 := iv.pts_le_desc hN h (by omega)
  rcases hhit with ⟨_, he⟩ | he | hm
  · rw [Interval.sub, Interval.pts_zero] at he
    have := iv.pts_zero ▸ h0
    linarith
  · rcases he with he | he <;> rw [Interval.sub] at he <;> simp at he <;> linarith
  · rcases hm with ⟨hmono, _⟩ | ⟨_, hv2, _⟩
    · rw [Interval.sub] at hmono; simp at hmono; linarith
    · rw [Interval.sub] at hv2; simp at hv2; linarith

theorem beta_scan_eq (iv : Interval) (v : ℚ) {k : ℕ}
    (h : firstHit (hit iv v) 0 iv.N = some k) : beta iv v = outAt iv v k := by
  unfold beta
  rw [h]

/-- Scan outcome at the worst endpoint (`left` of subinterval 0): the loop
breaks immediately with the all-zero array. -/
theorem beta_worst (iv : Interval) (hN : 0 < iv.N) :
    beta iv iv.left = List.replicate iv.N 0 := by
  have hhit : hit iv iv.left 0 := Or.inl ⟨rfl, by rw [Interval.sub, Interval.pts_zero]⟩
  have hscan : firstHit (hit iv iv.left) 0 iv.N = some 0 :=
    firstHit_some _ iv.N 0 0 le_rfl (by omega) hhit (by omega)
  rw [beta_scan_eq iv iv.left hscan, outAt,
    if_pos ⟨rfl, by rw [Interval.sub, Interval.pts_zero]⟩]

/-- Scan outcome at an interior breakpoint `pts (k+1)` (ascending): ones
through index `k`, zeros after. -/
theorem beta_breakpoint_asc (iv : Interval) (hN : 0 < iv.N) (h : iv.left < iv.right)
    {k : ℕ} (hk : k < iv.N) :
    beta iv (iv.pts (k + 1)) =
      List.ofFn fun j : Fin iv.N => if (j : ℕ) ≤ k then 1 else 0 := by
  have hv : iv.pts k < iv.pts (k + 1) := iv.pts_lt_asc hN h (by omega)
  have hhit : hit iv (iv.pts (k + 1)) k := Or.inr (Or.inl (Or.inr rfl))
  have hscan : firstHit (hit iv (iv.pts (k + 1))) 0 iv.N = some k :=
    firstHit_some _ iv.N 0 k (by omega) (by omega) hhit
      (fun j _ hj => no_hit_above_asc iv hN h hv j hj)
  have hedge : Subinterval.isedge (iv.sub k) (iv.pts (k + 1)) := Or.inr rfl
  rw [beta_scan_eq _ _ hscan, outAt]
  rw [if_neg, if_pos hedge]
  rintro ⟨hk0, he⟩
  subst hk0
  simp only [Interval.sub, Interval.pts_zero] at he
  rw [iv.pts_zero] at hv
  linarith

/-- Scan outcome strictly inside subinterval `k` (ascending): ones before
`k`, the interpolation fraction at `k`, zeros after. -/
theorem beta_interior_asc (iv : Interval) (hN : 0 < iv.N) (h : iv.left < iv.right)
    {k : ℕ} {v : ℚ} (hk : k < iv.N) (h1 : iv.pts k < v) (h2 : v < iv.pts (k + 1)) :
    beta iv v =
      List.ofFn fun j : Fin iv.N =>
        if (j : ℕ) < k then 1
        else if (j : ℕ) = k then (v - iv.pts k) / (iv.pts (k + 1) - iv.pts k)
        else 0 := by
  have hmono : (iv.sub k).1 < (iv.sub k).2 := iv.pts_lt_asc hN h (by omega)
  have hmem : Subinterval.mem (iv.sub k) v := Or.inl ⟨hmono, le_of_lt h1, le_of_lt h2⟩
  have hhit : hit iv v k := Or.inr (Or.inr hmem)
  have hscan : firstHit (hit iv v) 0 iv.N = some k :=
    firstHit_some _ iv.N 0 k (by omega) (by omega) hhit
      (fun j _ hj => no_hit_above_asc iv hN h h1 j hj)
  have hnedge : ¬ Subinterval.isedge (iv.sub k) v := by
    rintro (he | he) <;> simp only [Interval.sub] at he <;> linarith
  rw [beta_scan_eq _ _ hscan, outAt, if_neg, if_neg hnedge]
  · rfl
  · rintro ⟨hk0, he⟩
    subst hk0
    simp only [Interval.sub, Interval.pts_zero] at he
    rw [iv.pts_zero] at h1
    linarith

/-- Scan outcome at the best endpoint (ascending: `right`): all ones. -/
theorem beta_best_asc (iv : Interval) (hN : 0 < iv.N) (h : iv.left < iv.right) :
    beta iv iv.right = List.ofFn fun _ : Fin iv.N => (1 : ℚ) := by
  obtain ⟨m, hm⟩ : ∃ m, iv.N = m + 1 := ⟨iv.N - 1, by omega⟩
  have htop : iv.pts (m + 1) = iv.right := by rw [← hm]; exact iv.pts_top (by omega)
  have hcast := beta_breakpoint_asc iv hN h (k := m) (by omega)
  rw [htop] at hcast
  rw [hcast]
  congr 1
  funext j
  have : (j : ℕ) ≤ m := by have := j.isLt; omega
  simp [this]

/-- Scan outcome at an interior breakpoint `pts (k+1)` (descending). -/
theorem beta_breakpoint_desc (iv : Interval) (hN : 0 < iv.N) (h : iv.right < iv.left)
    {k : ℕ} (hk : k < iv.N) :
    beta iv (iv.pts (k + 1)) =
      List.ofFn fun j : Fin iv.N => if (j : ℕ) ≤ k then 1 else 0 := by
  have hv : iv.pts (k + 1) < iv.pts k := iv.pts_lt_desc hN h (by omega)
  have hhit : hit iv (iv.pts (k + 1)) k := Or.inr (Or.inl (Or.inr rfl))
  have hscan : firstHit (hit iv (iv.pts (k + 1))) 0 iv.N = some k :=
    firstHit_some _ iv.N 0 k (by omega) (by omega) hhit
      (fun j _ hj => no_hit_below_desc iv hN h hv j hj)
  have hedge : Subinterval.isedge (iv.sub k) (iv.pts (k + 1)) := Or.inr rfl
  rw [beta_scan_eq _ _ hscan, outAt]
  rw [if_neg, if_pos hedge]
  rintro ⟨hk0, he⟩
  subst hk0
  simp only [Interval.sub, Interval.pts_zero] at he
  rw [iv.pts_zero] at hv
  linarith

/-- Scan outcome strictly inside subinterval `k` (descending). -/
theorem beta_interior_desc (iv : Interval) (hN : 0 < iv.N) (h : iv.right < iv.left)
    {k : ℕ} {v : ℚ} (hk : k < iv.N) (h1 : iv.pts (k + 1) < v) (h2 : v < iv.pts k) :
    beta iv v =
      List.ofFn fun j : Fin iv.N =>
        if (j : ℕ) < k then 1
        else if (j : ℕ) = k then (v - iv.pts k) / (iv.pts (k + 1) - iv.pts k)
        else 0 := by
  have hmono : (iv.sub k).2 < (iv.sub k).1 := iv.pts_lt_desc hN h (by omega)
  have hmem : Subinterval.mem (iv.sub k) v :=
    Or.inr ⟨by simp only [Interval.sub] at hmono ⊢; linarith, le_of_lt h1, le_of_lt h2⟩
  have hhit : hit iv v k := Or.inr (Or.inr hmem)
  have hscan : firstHit (hit iv v) 0 iv.N = some k :=
    firstHit_some _ iv.N 0 k (by omega) (by omega) hhit
      (fun j _ hj => no_hit_below_desc iv hN h h2 j hj)
  have hnedge : ¬ Subinterval.isedge (iv.sub k) v := by
    rintro (he | he) <;> simp only [Interval.sub] at he <;> linarith
  rw [beta_scan_eq _ _ hscan, outAt, if_neg, if_neg hnedge]
  · rfl
  · rintro ⟨hk0, he⟩
    subst hk0
    simp only [Interval.sub, Interval.pts_zero] at he
    rw [iv.pts_zero] at h2
    linarith

/-- Scan outcome at the best endpoint (descending: `right`): all ones. -/
theorem beta_best_desc (iv : Interval) (hN : 0 < iv.N) (h : iv.right < iv.left) :
    beta iv iv.right = List.ofFn fun _ : Fin iv.N => (1 : ℚ) := by
  obtain ⟨m, hm⟩ : ∃ m, iv.N = m + 1 := ⟨iv.N - 1, by omega⟩
  have htop : iv.pts (m + 1) = iv.right := by rw [← hm]; exact iv.pts_top (by omega)
  have hcast := beta_breakpoint_desc iv hN h (k := m) (by omega)
  rw [htop] at hcast
  rw [hcast]
  congr 1
  funext j
  have : (j : ℕ) ≤ m := by have := j.isLt; omega
  simp [this]

/-- A value strictly outside the interval (ascending) fires no guard: the
scan returns the all-zero array. -/
theorem beta_outside_asc (iv : Interval) (hN : 0 < iv.N) (h : iv.left < iv.right)
    {v : ℚ} (hout : v < iv.left ∨ iv.right < v) :
    beta iv v = List.replicate iv.N 0 := by
  have hbounds : ∀ j, j ≤ iv.N → iv.left ≤ iv.pts j ∧ iv.pts j ≤ iv.right := by
    intro j hj
    constructor
    · have := iv.pts_le_asc hN h (Nat.zero_le j); rw [iv.pts_zero] at this; exact this
    · have := iv.pts_le_asc hN h hj; rw [iv.pts_top (by omega)] at this; exact this
  have hnone : firstHit (hit iv v) 0 iv.N = none := by
    apply firstHit_none
    intro j _ hj hhit
    have hj1 := hbounds j (by omega)
    have hj2 := hbounds (j + 1) (by omega)
    rcases hhit with ⟨_, he⟩ | he | hm
    · simp only [Interval.sub] at he
      have := hbounds 0 (by omega)
      rcases hout with ho | ho <;> linarith
    · rcases he with he | he <;> simp only [Interval.sub] at he <;>
        rcases hout with ho | ho <;> linarith
    · rcases hm with ⟨_, hv1, hv2⟩ | ⟨hmono, _⟩
      · simp only [Interval.sub] at hv1 hv2
        rcases hout with ho | ho <;> linarith
      · simp only [Interval.sub] at hmono
        exact hmono (iv.pts_lt_asc hN h (by omega))
  unfold beta
  rw [hnone]

/-- A value strictly outside the interval (descending) fires no guard. -/
theorem beta_outside_desc (iv : Interval) (hN : 0 < iv.N) (h : iv.right < iv.left)
    {v : ℚ} (hout : iv.left < v ∨ v < iv.right) :
    beta iv v = List.replicate iv.N 0 := by
  have hbounds : ∀ j, j ≤ iv.N → iv.right ≤ iv.pts j ∧ iv.pts j ≤ iv.left := by
    intro j hj
    constructor
    · have := iv.pts_le_desc hN h hj; rw [iv.pts_top (by omega)] at this; exact this
    · have := iv.pts_le_desc hN h (Nat.zero_le j); rw [iv.pts_zero] at this; exact this
  have hnone : firstHit (hit iv v) 0 iv.N = none := by
    apply firstHit_none
    intro j _ hj hhit
    have hj1 := hbounds j (by omega)
    have hj2 := hbounds (j + 1) (by omega)
    rcases hhit with ⟨_, he⟩ | he | hm
    · simp only [Interval.sub] at he
      have := hbounds 0 (by omega)
      rcases hout with ho | ho <;> linarith
    · rcases he with he | he <;> simp only [Interval.sub] at he <;>
        rcases hout with ho | ho <;> linarith
    · rcases hm with ⟨hmono, _⟩ | ⟨_, hv1, hv2⟩
      · simp only [Interval.sub] at hmono
        have := iv.pts_lt_desc hN h (show j < j + 1 by omega)
        linarith
      · simp only [Interval.sub] at hv1 hv2
        rcases hout with ho | ho <;> linarith
  unfold beta
  rw [hnone]

/-! ### Claims C1, C8, C9 : the basis encoder -/

/-- C1: For a Criterion with `N` subintervals (endpoints `l ≠ r`) and a
nonnegative value `v` inside the interval, `Criterion.get_value` returns
the basis vector `beta` with: all zeros at the worst endpoint (`left` of
subinterval 0); all ones at the best endpoint; ones before the subinterval
containing `v`, the fraction `(v - left)/(right - left)` at it when `v` is
strictly interior, and zeros after; and ones through index `k` (then
zeros) when `v` equals breakpoint `pts (k+1)`, the right endpoint of
subinterval `k`, where the scan stops. -/
theorem C1_basis_vector (l r : ℚ) (N k : ℕ) (hN : 0 < N) (hlr : l ≠ r) (hk : k < N)
    (v : ℚ) (hv : 0 ≤ v) :
    (v = l → get_value ⟨l, r, N⟩ v = .ok (List.replicate N 0)) ∧
    (v = r → get_value ⟨l, r, N⟩ v = .ok (List.ofFn fun _ : Fin N => (1 : ℚ))) ∧
    ((Interval.pts ⟨l, r, N⟩ k < v ∧ v < Interval.pts ⟨l, r, N⟩ (k + 1)) ∨
       (Interval.pts ⟨l, r, N⟩ (k + 1) < v ∧ v < Interval.pts ⟨l, r, N⟩ k) →
      get_value ⟨l, r, N⟩ v =
        .ok (List.ofFn fun j : Fin N =>
          if (j : ℕ) < k then 1
          else if (j : ℕ) = k then
            (v - Interval.pts ⟨l, r, N⟩ k) /
              (Interval.pts ⟨l, r, N⟩ (k + 1) - Interval.pts ⟨l, r, N⟩ k)
          else 0)) ∧
    (v = Interval.pts ⟨l, r, N⟩ (k + 1) →
      get_value ⟨l, r, N⟩ v =
        .ok (List.ofFn fun j : Fin N => if (j : ℕ) ≤ k then 1 else 0)) := by
  refine ⟨?_, ?_, ?_, ?_⟩
  · intro hveq
    rw [hveq] at hv ⊢
    simp only [get_value, if_pos hv]
    exact congrArg Except.ok (beta_worst ⟨l, r, N⟩ hN)
  · intro hveq
    rw [hveq] at hv ⊢
    simp only [get_value, if_pos hv]
    rcases lt_or_gt_of_ne hlr with hasc | hdesc
    · exact congrArg Except.ok (beta_best_asc ⟨l, r, N⟩ hN hasc)
    · exact congrArg Except.ok (beta_best_desc ⟨l, r, N⟩ hN hdesc)
  · intro hin
    simp only [get_value, if_pos hv]
    rcases lt_or_gt_of_ne hlr with hasc | hdesc
    · rcases hin with ⟨h1, h2⟩ | ⟨h1, h2⟩
      · exact congrArg Except.ok (beta_interior_asc ⟨l, r, N⟩ hN hasc hk h1 h2)
      · have := Interval.pts_lt_asc ⟨l, r, N⟩ hN hasc (show k < k + 1 by omega)
        exact absurd this (by linarith)
    · rcases hin with ⟨h1, h2⟩ | ⟨h1, h2⟩
      · have := Interval.pts_lt_desc ⟨l, r, N⟩ hN hdesc (show k < k + 1 by omega)
        exact absurd this (by linarith)
      · exact congrArg Except.ok (beta_interior_desc ⟨l, r, N⟩ hN hdesc hk h1 h2)
  · intro hveq
    rw [hveq] at hv ⊢
    simp only [get_value, if_pos hv]
    rcases lt_or_gt_of_ne hlr with hasc | hdesc
    · exact congrArg Except.ok (beta_breakpoint_asc ⟨l, r, N⟩ hN hasc hk)
    · exact congrArg Except.ok (beta_breakpoint_desc ⟨l, r, N⟩ hN hdesc hk)

theorem C1_basis_vector_witness :
    (0 : ℚ) ≤ 1/2 ∧
    Interval.pts ⟨0, 2, 2⟩ 0 < (1/2 : ℚ) ∧ (1/2 : ℚ) < Interval.pts ⟨0, 2, 2⟩ 1 ∧
    get_value ⟨0, 2, 2⟩ (1/2) = .ok [1/2, 0] ∧
    get_value ⟨0, 2, 2⟩ 0 = .ok [0, 0] ∧
    get_value ⟨0, 2, 2⟩ 2 = .ok [1, 1] := by
  have hp0 : Interval.pts (⟨0, 2, 2⟩ : Interval) 0 = 0 := by norm_num [Interval.pts]
  have hp1 : Interval.pts (⟨0, 2, 2⟩ : Interval) 1 = 1 := by norm_num [Interval.pts]
  have h1 : Interval.pts (⟨0, 2, 2⟩ : Interval) 0 < (1/2 : ℚ) := by rw [hp0]; norm_num
  have h2 : (1/2 : ℚ) < Interval.pts (⟨0, 2, 2⟩ : Interval) 1 := by rw [hp1]; norm_num
  refine ⟨by norm_num, h1, h2, ?_, ?_, ?_⟩
  · have h := (C1_basis_vector 0 2 2 0 (by norm_num) (by norm_num) (by norm_num)
      (1/2) (by norm_num)).2.2.1 (Or.inl ⟨h1, h2⟩)
    rw [h]
    congr 1
    simp [List.ofFn_succ, hp0, hp1]
  · have h := (C1_basis_vector 0 2 2 0 (by norm_num) (by norm_num) (by norm_num)
      0 (by norm_num)).1 rfl
    rw [h]
    rfl
  · have h := (C1_basis_vector 0 2 2 0 (by norm_num) (by norm_num) (by norm_num)
      2 (by norm_num)).2.1 rfl
    rw [h]
    congr 1

/-- C8: `get_value` fails (with the per-value validation error) exactly
when `v` is negative, and succeeds with a beta-vector for every
nonnegative `v`.  (The non-numeric leg of the validation raises
`TypeError` in the source and is enforced here by the type `ℚ` of `v`.) -/
theorem C8_get_value_validation (l r : ℚ) (N : ℕ) (_hlr : l ≠ r) (v : ℚ) :
    (get_value ⟨l, r, N⟩ v = .error .valueError ↔ v < 0) ∧
    (0 ≤ v → get_value ⟨l, r, N⟩ v = .ok (beta ⟨l, r, N⟩ v)) := by
  constructor
  · constructor
    · intro h
      by_contra hneg
      push_neg at hneg
      simp only [get_value, if_pos hneg] at h
      exact Except.noConfusion h
    · intro h
      simp only [get_value, if_neg (not_le.mpr h)]
  · intro h
    simp only [get_value, if_pos h]

theorem C8_get_value_validation_witness :
    ((-1 : ℚ) < 0 ∧ get_value ⟨0, 2, 2⟩ (-1) = .error .valueError) ∧
    ((0 : ℚ) ≤ 3 ∧ get_value ⟨0, 2, 2⟩ 3 = .ok (beta ⟨0, 2, 2⟩ 3)) :=
  ⟨⟨by norm_num, (C8_get_value_validation 0 2 2 (by norm_num) (-1)).1.mpr (by norm_num)⟩,
   ⟨by norm_num, (C8_get_value_validation 0 2 2 (by norm_num) 3).2 (by norm_num)⟩⟩

/-- C9: a nonnegative value lying strictly outside the criterion's
interval (beyond the best endpoint, or on the far side of the worst one)
yields the all-zero beta vector without raising — the same result as the
worst endpoint. -/
theorem C9_out_of_range_zero (l r : ℚ) (N : ℕ) (hN : 0 < N) (v : ℚ) (hv : 0 ≤ v)
    (hout : (l < r ∧ (v < l ∨ r < v)) ∨ (r < l ∧ (l < v ∨ v < r))) :
    get_value ⟨l, r, N⟩ v = .ok (List.replicate N 0) := by
  simp only [get_value, if_pos hv]
  rcases hout with ⟨h, ho⟩ | ⟨h, ho⟩
  · exact congrArg Except.ok (beta_outside_asc ⟨l, r, N⟩ hN h ho)
  · exact congrArg Except.ok (beta_outside_desc ⟨l, r, N⟩ hN h ho)

theorem C9_out_of_range_zero_witness :
    (0 : ℚ) ≤ 5 ∧ ((0 : ℚ) < 2 ∧ ((5 : ℚ) < 0 ∨ (2 : ℚ) < 5)) ∧
    get_value ⟨0, 2, 2⟩ 5 = .ok [0, 0] := by
  refine ⟨by norm_num, ⟨by norm_num, Or.inr (by norm_num)⟩, ?_⟩
  have h := C9_out_of_range_zero 0 2 2 (by norm_num) 5 (by norm_num)
    (Or.inl ⟨by norm_num, Or.inr (by norm_num)⟩)
  rw [h]
  rfl

/-! ### Claim C10 : `Interval.__getitem__` -/

/-- A Python indexing key: an `int`, or a value of any other type. -/
inductive PyKey where
  | int (z : ℤ)
  | other
deriving DecidableEq

/-- A value returned by `Interval.__getitem__`: a subinterval, or the
`TypeError` exception object that the source returns (instead of raising)
for a non-integer key. -/
inductive GetItemVal where
  | sub (p : ℚ × ℚ)
  | typeErrorObject
deriving DecidableEq

/-- Source `Interval.__getitem__`: for an `int` key in `[0, N)` it returns the
subinterval; for an `int` key out of range it raises `IndexError`; for any
other key it RETURNS (not raises) a `TypeError` exception object. -/
def getitem (iv : Interval) (k : PyKey) : Except PyError GetItemVal :=
  match k with
  | .int z =>
      if 0 ≤ z ∧ z < (iv.N : ℤ) then .ok (.sub (iv.sub z.toNat))
      else .error .indexError
  | .other => .ok .typeErrorObject

/-- C10: a non-integer key makes `Interval.__getitem__` return a
`TypeError` exception object as its result value instead of raising;
an in-range integer key returns the subinterval; only an out-of-range
integer key raises (`IndexError`). -/
theorem C10_getitem_typeerror (iv : Interval) (k : PyKey) :
    (k = .other → getitem iv k = .ok .typeErrorObject) ∧
    (∀ z, k = .int z →
      ((0 ≤ z ∧ z < (iv.N : ℤ)) → getitem iv k = .ok (.sub (iv.sub z.toNat))) ∧
      (¬ (0 ≤ z ∧ z < (iv.N : ℤ)) → getitem iv k = .error .indexError)) := by
  constructor
  · intro h
    subst h
    rfl
  · intro z h
    subst h
    constructor
    · intro hin
      simp only [getitem, if_pos hin]
    · intro hout
      simp only [getitem, if_neg hout]

theorem C10_getitem_typeerror_witness :
    getitem ⟨0, 2, 2⟩ .other = .ok .typeErrorObject ∧
    ((0 : ℤ) ≤ 0 ∧ (0 : ℤ) < ((2 : ℕ) : ℤ)) ∧
    getitem ⟨0, 2, 2⟩ (.int 0) = .ok (.sub (Interval.sub ⟨0, 2, 2⟩ 0)) ∧
    ¬ ((0 : ℤ) ≤ 5 ∧ (5 : ℤ) < ((2 : ℕ) : ℤ)) ∧
    getitem ⟨0, 2, 2⟩ (.int 5) = .error .indexError := by
  have hin : (0 : ℤ) ≤ 0 ∧ (0 : ℤ) < ((2 : ℕ) : ℤ) := by norm_num
  have hout : ¬ ((0 : ℤ) ≤ 5 ∧ (5 : ℤ) < ((2 : ℕ) : ℤ)) := by norm_num
  refine ⟨(C10_getitem_typeerror ⟨0, 2, 2⟩ .other).1 rfl, hin, ?_, hout, ?_⟩
  · exact ((C10_getitem_typeerror ⟨0, 2, 2⟩ (.int 0)).2 0 rfl).1 hin
  · exact ((C10_getitem_typeerror ⟨0, 2, 2⟩ (.int 5)).2 5 rfl).2 hout

/-! ### Result assembly (`UtastarResult.__init__`, `get_utility`) -/

/-- The pointer-based slicing of the `w_values` vector into per-criterion
chunks performed by `UtastarResult.__init__`. -/
def slicesBy : List ℚ → List ℕ → List (List ℚ)
  | _, [] => []
  | w, n :: ns => w.take n :: slicesBy (w.drop n) ns

/-- Helper for `np.cumsum`: running accumulator form. -/
def cumsumFrom (acc : ℚ) : List ℚ → List ℚ
  | [] => []
  | x :: xs => (acc + x) :: cumsumFrom (acc + x) xs

/-- Embedding of `np.cumsum`. -/
def cumsum (l : List ℚ) : List ℚ := cumsumFrom 0 l

/-- Embedding of `np.dot` on two equal-length vectors. -/
def dot (a b : List ℚ) : ℚ := (List.zipWith (· * ·) a b).sum

/-- A row of the multicriteria table: the user rank and the raw criterion
values (the alternative's name, the DataFrame index, plays no role in the
computations and is omitted). -/
abbrev TableRow := ℚ × List ℚ

/-- Insertion step of sorting the result table by the Utilities column,
descending (`sort_values("Utilities", ascending=False)`). -/
def insertUtilDesc (x : TableRow × ℚ) : List (TableRow × ℚ) → List (TableRow × ℚ)
  | [] => [x]
  | y :: ys => if y.2 ≤ x.2 then x :: y :: ys else y :: insertUtilDesc x ys

/-- Sort the result table by the Utilities column, descending.  (pandas
uses quicksort here; any comparison sort yields a permutation with the
same descending order, which is all the claims depend on.) -/
def sortByUtilDesc : List (TableRow × ℚ) → List (TableRow × ℚ)
  | [] => []
  | x :: xs => insertUtilDesc x (sortByUtilDesc xs)

theorem insertUtilDesc_perm (x : TableRow × ℚ) :
    ∀ l, List.Perm (insertUtilDesc x l) (x :: l) := by
  intro l
  induction l with
  | nil => exact List.Perm.refl _
  | cons y ys ih =>
    unfold insertUtilDesc
    by_cases h : y.2 ≤ x.2
    · rw [if_pos h]
    · rw [if_neg h]
      exact (ih.cons y).trans (List.Perm.swap x y ys)

theorem sortByUtilDesc_perm : ∀ l, List.Perm (sortByUtilDesc l) l := by
  intro l
  induction l with
  | nil => exact List.Perm.refl _
  | cons x xs ih =>
    exact (insertUtilDesc_perm x (sortByUtilDesc xs)).trans (ih.cons x)

/-- The per-row basis construction
`for value, criterion in zip(values, criteria): weights.extend(criterion.get_value(value))`
shared by `utastar()` (building the alternatives matrix) and
`UtastarResult.get_utility`.  Python's `zip` truncates at the shorter
argument, as the `(_, _)` fallback does here. -/
def rowBasis : List Interval → List ℚ → Except PyError (List ℚ)
  | iv :: ivs, v :: vs =>
    match get_value iv v with
    | .error e => .error e
    | .ok b =>
      match rowBasis ivs vs with
      | .error e => .error e
      | .ok rest => .ok (b ++ rest)
  | _, _ => .ok []

/-- The result object of a run (`UtastarResult`).  `first_sol` and
`sa_sol` hold, when present, the raw solution vectors from which the
source builds its nested `UtastarResult` objects (the primary LP solution
split into w-part and error-part, and the per-criterion post-optimality
solutions). -/
structure UtastarResult where
  criteria : List (String × Interval)
  w_values : List (String × List ℚ)
  weights : List ℚ
  p_util : List (String × List ℚ)
  errors : List ℚ
  table : List (TableRow × ℚ)
  first_sol : Option (List ℚ × List ℚ)
  sa_sol : Option (List (List ℚ) × List (List ℚ))
deriving DecidableEq

/-- Source `UtastarResult.__init__`: slice the w-vector per criterion (dict in
criteria order), sum the slices into weights, cumulative-sum them into
partial utilities, dot the alternatives matrix with `w` for the Utilities
column, and sort the table by Utilities descending.  (The Kendall-tau
statistic, computed from the two index orders via `scipy`, is not involved
in any claim and is omitted.) -/
def mkUtastarResult (criteria : List (String × Interval)) (w : List ℚ)
    (alts : List (List ℚ)) (errs : List ℚ) (tbl : List TableRow)
    (fs : Option (List ℚ × List ℚ)) (sa : Option (List (List ℚ) × List (List ℚ))) :
    UtastarResult :=
  let slices := slicesBy w (criteria.map fun c => c.2.N)
  { criteria := criteria
    w_values := (criteria.map Prod.fst).zip slices
    weights := slices.map List.sum
    p_util := (criteria.map Prod.fst).zip (slices.map cumsum)
    errors := errs
    table := sortByUtilDesc (tbl.zip (alts.map fun a => dot a w))
    first_sol := fs
    sa_sol := sa }

/-- Source `UtastarResult.get_utility`: rebuild the concatenated beta-row from
the stored criteria and dot it with the concatenation of the stored
`w_values` slices. -/
def get_utility (res : UtastarResult) (vals : List ℚ) : Except PyError ℚ :=
  match rowBasis (res.criteria.map Prod.snd) vals with
  | .error e => .error e
  | .ok b => .ok (dot b (res.w_values.map Prod.snd).flatten)

theorem get_utility_ok (res : UtastarResult) (vals : List ℚ) (b : List ℚ)
    (h : rowBasis (res.criteria.map Prod.snd) vals = .ok b) :
    get_utility res vals = .ok (dot b (res.w_values.map Prod.snd).flatten) := by
  unfold get_utility
  rw [h]

/-! ### Slicing and cumulative-sum lemmas -/

theorem slicesBy_length : ∀ (ns : List ℕ) (w : List ℚ),
    (slicesBy w ns).length = ns.length := by
  intro ns
  induction ns with
  | nil => intro w; rfl
  | cons n ns ih => intro w; simp [slicesBy, ih]

theorem flatten_slicesBy : ∀ (ns : List ℕ) (w : List ℚ), w.length = ns.sum →
    (slicesBy w ns).flatten = w := by
  intro ns
  induction ns with
  | nil =>
    intro w h
    simp only [List.sum_nil] at h
    rw [List.length_eq_zero] at h
    subst h
    rfl
  | cons n ns ih =>
    intro w h
    simp only [List.sum_cons] at h
    have hd : (w.drop n).length = ns.sum := by simp [List.length_drop]; omega
    simp only [slicesBy, List.flatten_cons]
    rw [ih (w.drop n) hd, List.take_append_drop]

theorem mem_slicesBy : ∀ (ns : List ℕ) (w s : List ℚ), s ∈ slicesBy w ns →
    ∀ x ∈ s, x ∈ w := by
  intro ns
  induction ns with
  | nil => intro w s hs; exact absurd hs (List.not_mem_nil s)
  | cons n ns ih =>
    intro w s hs x hx
    rcases List.mem_cons.mp hs with h | h
    · subst h
      exact (List.take_sublist n w).subset hx
    · exact (List.drop_sublist n w).subset (ih (w.drop n) s h x hx)

theorem cumsumFrom_getLast : ∀ (l : List ℚ) (acc : ℚ), l ≠ [] →
    (cumsumFrom acc l).getLast? = some (acc + l.sum) := by
  intro l
  induction l with
  | nil => intro acc h; exact absurd rfl h
  | cons x xs ih =>
    intro acc _
    cases xs with
    | nil => simp [cumsumFrom]
    | cons y ys =>
      have h2 := ih (acc + x) (by simp)
      simp only [cumsumFrom] at h2 ⊢
      rw [List.getLast?_cons_cons, h2]
      congr 1
      simp only [List.sum_cons]
      ring

theorem cumsum_getLast (l : List ℚ) (h : l ≠ []) :
    (cumsum l).getLast? = some l.sum := by
  rw [cumsum, cumsumFrom_getLast l 0 h, zero_add]

theorem cumsumFrom_chain : ∀ (l : List ℚ) (acc : ℚ), (∀ x ∈ l, 0 ≤ x) →
    List.Chain' (· ≤ ·) (cumsumFrom acc l) := by
  intro l
  induction l with
  | nil => intro acc _; simp [cumsumFrom]
  | cons x xs ih =>
    intro acc h
    cases xs with
    | nil => simp [cumsumFrom]
    | cons y ys =>
      have hy : (0 : ℚ) ≤ y := h y (by simp)
      have htail := ih (acc + x) fun z hz => h z (List.mem_cons_of_mem x hz)
      simp only [cumsumFrom] at htail ⊢
      exact List.chain'_cons.mpr ⟨by linarith, htail⟩

theorem cumsum_chain (l : List ℚ) (h : ∀ x ∈ l, 0 ≤ x) :
    List.Chain' (· ≤ ·) (cumsum l) :=
  cumsumFrom_chain l 0 h

theorem zip_map_snd {α β γ : Type} (f : β → γ) :
    ∀ (l1 : List α) (l2 : List β), l1.length = l2.length →
      (l1.zip l2).map (fun p => f p.2) = l2.map f := by
  intro l1
  induction l1 with
  | nil =>
    intro l2 h
    cases l2 with
    | nil => rfl
    | cons b l2 => simp at h
  | cons a l1 ih =>
    intro l2 h
    cases l2 with
    | nil => simp at h
    | cons b l2 =>
      simp only [List.zip_cons_cons, List.map_cons]
      rw [ih l2 (by simpa using h)]

theorem zip_map_right {α β γ : Type} (g : β → γ) :
    ∀ (l1 : List α) (l2 : List β),
      l1.zip (l2.map g) = (l1.zip l2).map (fun p => (p.1, g p.2)) := by
  intro l1
  induction l1 with
  | nil => intro l2; rfl
  | cons a l1 ih =>
    intro l2
    cases l2 with
    | nil => rfl
    | cons b l2 => simp only [List.map_cons, List.zip_cons_cons, ih]

theorem zip_snd {α β : Type} : ∀ (l1 : List α) (l2 : List β), l1.length = l2.length →
    (l1.zip l2).map Prod.snd = l2 := by
  intro l1
  induction l1 with
  | nil =>
    intro l2 h
    cases l2 with
    | nil => rfl
    | cons b l2 => simp at h
  | cons a l1 ih =>
    intro l2 h
    cases l2 with
    | nil => simp at h
    | cons b l2 =>
      simp only [List.zip_cons_cons, List.map_cons]
      rw [ih l2 (by simpa using h)]

theorem forall2_pu : ∀ (ns : List ℕ) (names : List String) (w : List ℚ),
    names.length = ns.length → w.length = ns.sum → (∀ n ∈ ns, 0 < n) →
    List.Forall₂ (fun (pu : String × List ℚ) (wgt : ℚ) => pu.2.getLast? = some wgt)
      (names.zip ((slicesBy w ns).map cumsum)) ((slicesBy w ns).map List.sum) := by
  intro ns
  induction ns with
  | nil =>
    intro names w _ _ _
    simp only [slicesBy, List.map_nil, List.zip_nil_right]
    exact List.Forall₂.nil
  | cons n ns ih =>
    intro names w hl hw hpos
    cases names with
    | nil => simp at hl
    | cons a names =>
      simp only [slicesBy, List.map_cons, List.zip_cons_cons, List.sum_cons] at hw ⊢
      constructor
      · apply cumsum_getLast
        have hlen : (w.take n).length = n := by
          rw [List.length_take]
          omega
        have hn : 0 < n := hpos n (List.mem_cons_self n ns)
        intro hnil
        rw [hnil] at hlen
        simp at hlen
        omega
      · exact ih names (w.drop n) (by simpa using hl)
          (by rw [List.length_drop]; omega)
          (fun m hm => hpos m (List.mem_cons_of_mem n hm))

/-! ### Claim C5 : result invariants -/

/-- C5: for every UtastarResult constructed from a criteria set and a
w-vector, and every criterion: the sum of `w_values[crit]` equals
`weights[crit]`; `partial_util[crit]` is the cumulative sum of
`w_values[crit]`, so its last element equals `weights[crit]`; and whenever
all entries of the w-vector are nonnegative, `partial_util[crit]` is
nondecreasing. -/
theorem C5_result_invariants (criteria : List (String × Interval)) (w : List ℚ)
    (alts : List (List ℚ)) (errs : List ℚ) (tbl : List TableRow)
    (fs : Option (List ℚ × List ℚ)) (sa : Option (List (List ℚ) × List (List ℚ)))
    (hlen : w.length = (criteria.map fun c => c.2.N).sum)
    (hpos : ∀ c ∈ criteria, 0 < c.2.N) :
    (mkUtastarResult criteria w alts errs tbl fs sa).weights =
      (mkUtastarResult criteria w alts errs tbl fs sa).w_values.map (fun p => p.2.sum) ∧
    (mkUtastarResult criteria w alts errs tbl fs sa).p_util =
      (mkUtastarResult criteria w alts errs tbl fs sa).w_values.map
        (fun p => (p.1, cumsum p.2)) ∧
    List.Forall₂ (fun (pu : String × List ℚ) (wgt : ℚ) => pu.2.getLast? = some wgt)
      (mkUtastarResult criteria w alts errs tbl fs sa).p_util
      (mkUtastarResult criteria w alts errs tbl fs sa).weights ∧
    ((∀ x ∈ w, 0 ≤ x) →
      ∀ pu ∈ (mkUtastarResult criteria w alts errs tbl fs sa).p_util,
        List.Chain' (· ≤ ·) pu.2) := by
  have hslen : (slicesBy w (criteria.map fun c => c.2.N)).length =
      (criteria.map Prod.fst).length := by
    rw [slicesBy_length]
    simp
  refine ⟨?_, ?_, ?_, ?_⟩
  · exact (zip_map_snd List.sum (criteria.map Prod.fst) _ hslen.symm).symm
  · exact zip_map_right cumsum (criteria.map Prod.fst) _
  · apply forall2_pu
    · simp
    · exact hlen
    · intro n hn
      rcases List.mem_map.mp hn with ⟨c, hc, rfl⟩
      exact hpos c hc
  · intro hw pu hpu
    obtain ⟨a, b⟩ := pu
    have hb : b ∈ (slicesBy w (criteria.map fun c => c.2.N)).map cumsum :=
      (List.of_mem_zip hpu).2
    rcases List.mem_map.mp hb with ⟨s, hs, rfl⟩
    exact cumsum_chain s fun x hx => hw x (mem_slicesBy _ w s hs x hx)

theorem C5_result_invariants_witness :
    ([1/2, 1/2] : List ℚ).length =
      (([("a", (⟨0, 2, 2⟩ : Interval))]).map fun c => c.2.N).sum ∧
    (∀ c ∈ [("a", (⟨0, 2, 2⟩ : Interval))], 0 < c.2.N) ∧
    ((mkUtastarResult [("a", ⟨0, 2, 2⟩)] [1/2, 1/2] [] [] [] none none).weights =
      (mkUtastarResult [("a", ⟨0, 2, 2⟩)] [1/2, 1/2] [] [] [] none none).w_values.map
        (fun p => p.2.sum) ∧
    (mkUtastarResult [("a", ⟨0, 2, 2⟩)] [1/2, 1/2] [] [] [] none none).p_util =
      (mkUtastarResult [("a", ⟨0, 2, 2⟩)] [1/2, 1/2] [] [] [] none none).w_values.map
        (fun p => (p.1, cumsum p.2)) ∧
    List.Forall₂ (fun (pu : String × List ℚ) (wgt : ℚ) => pu.2.getLast? = some wgt)
      (mkUtastarResult [("a", ⟨0, 2, 2⟩)] [1/2, 1/2] [] [] [] none none).p_util
      (mkUtastarResult [("a", ⟨0, 2, 2⟩)] [1/2, 1/2] [] [] [] none none).weights ∧
    ((∀ x ∈ ([1/2, 1/2] : List ℚ), 0 ≤ x) →
      ∀ pu ∈ (mkUtastarResult [("a", ⟨0, 2, 2⟩)] [1/2, 1/2] [] [] [] none none).p_util,
        List.Chain' (· ≤ ·) pu.2)) :=
  ⟨rfl, by decide,
    C5_result_invariants [("a", ⟨0, 2, 2⟩)] [1/2, 1/2] [] [] [] none none rfl (by decide)⟩

/-! ### Claim C4 : the scoring round trip -/

theorem mem_zip_of_forall2 {α β γ : Type} (P : α → β → Prop) (f : β → γ)
    (l1 : List α) (l2 : List β) (h : List.Forall₂ P l1 l2) :
    ∀ e ∈ l1.zip (l2.map f), ∃ a b, e = (a, f b) ∧ P a b := by
  induction h with
  | nil => intro e he; exact absurd he (List.not_mem_nil e)
  | cons h1 h2 ih =>
    intro e he
    simp only [List.map_cons, List.zip_cons_cons, List.mem_cons] at he
    rcases he with he | he
    · exact ⟨_, _, he, h1⟩
    · exact ih e he

/-- C4: for every Result and every row of its sorted table,
`Result.get_utility` applied to that row's raw criterion values
reproduces the Utilities-column value stored with the row: rebuilding the
concatenated beta-row from the stored criteria and dotting it with the
stored w-vector gives the tabulated utility (exactly, in the rational
embedding). -/
theorem C4_round_trip (criteria : List (String × Interval)) (w : List ℚ)
    (alts : List (List ℚ)) (errs : List ℚ) (tbl : List TableRow)
    (fs : Option (List ℚ × List ℚ)) (sa : Option (List (List ℚ) × List (List ℚ)))
    (hw : w.length = (criteria.map fun c => c.2.N).sum)
    (halign : List.Forall₂ (fun (row : TableRow) (alt : List ℚ) =>
        rowBasis (criteria.map Prod.snd) row.2 = .ok alt) tbl alts) :
    ∀ e ∈ (mkUtastarResult criteria w alts errs tbl fs sa).table,
      get_utility (mkUtastarResult criteria w alts errs tbl fs sa) e.1.2 = .ok e.2 := by
  intro e he
  have hperm := sortByUtilDesc_perm (tbl.zip (alts.map fun a => dot a w))
  have he' : e ∈ tbl.zip (alts.map fun a => dot a w) := hperm.subset he
  obtain ⟨row, alt, heq, hrow⟩ :=
    mem_zip_of_forall2 _ (fun a => dot a w) tbl alts halign e he'
  subst heq
  have hbasis : rowBasis
      ((mkUtastarResult criteria w alts errs tbl fs sa).criteria.map Prod.snd) row.2 =
      .ok alt := hrow
  rw [get_utility_ok _ _ _ hbasis]
  congr 1
  show dot alt
      (((criteria.map Prod.fst).zip
        (slicesBy w (criteria.map fun c => c.2.N))).map Prod.snd).flatten = dot alt w
  rw [zip_snd _ _ (by rw [slicesBy_length]; simp),
    flatten_slicesBy _ w hw]

theorem rowBasis_cons (iv : Interval) (ivs : List Interval) (v : ℚ) (vs : List ℚ)
    (b rest : List ℚ) (h1 : get_value iv v = .ok b) (h2 : rowBasis ivs vs = .ok rest) :
    rowBasis (iv :: ivs) (v :: vs) = .ok (b ++ rest) := by
  unfold rowBasis
  rw [h1, h2]

theorem beta_sample_best : beta ⟨0, 2, 2⟩ 2 = [1, 1] :=
  (beta_best_asc ⟨0, 2, 2⟩ (by norm_num) (by norm_num)).trans (by simp [List.ofFn_succ])

theorem beta_sample_worst : beta ⟨0, 2, 2⟩ 0 = [0, 0] :=
  (beta_worst ⟨0, 2, 2⟩ (by norm_num)).trans rfl

theorem gv_sample_best : get_value ⟨0, 2, 2⟩ 2 = .ok [1, 1] := by
  unfold get_value
  rw [if_pos (show (0 : ℚ) ≤ 2 by norm_num)]
  exact congrArg Except.ok beta_sample_best

theorem gv_sample_worst : get_value ⟨0, 2, 2⟩ 0 = .ok [0, 0] := by
  unfold get_value
  rw [if_pos (show (0 : ℚ) ≤ 0 by norm_num)]
  exact congrArg Except.ok beta_sample_worst

theorem rowBasis_sample_best : rowBasis [⟨0, 2, 2⟩] [2] = .ok [1, 1] :=
  (rowBasis_cons _ [] _ [] [1, 1] [] gv_sample_best rfl).trans rfl

theorem rowBasis_sample_worst : rowBasis [⟨0, 2, 2⟩] [0] = .ok [0, 0] :=
  (rowBasis_cons _ [] _ [] [0, 0] [] gv_sample_worst rfl).trans rfl

theorem C4_round_trip_witness :
    ([1/2, 1/2] : List ℚ).length =
      (([("a", (⟨0, 2, 2⟩ : Interval))]).map fun c => c.2.N).sum ∧
    List.Forall₂ (fun (row : TableRow) (alt : List ℚ) =>
        rowBasis (([("a", (⟨0, 2, 2⟩ : Interval))]).map Prod.snd) row.2 = .ok alt)
      [((1 : ℚ), [(2 : ℚ)]), ((2 : ℚ), [(0 : ℚ)])] [[1, 1], [0, 0]] ∧
    ∀ e ∈ (mkUtastarResult [("a", ⟨0, 2, 2⟩)] [1/2, 1/2] [[1, 1], [0, 0]]
        [0, 0, 0, 0] [(1, [2]), (2, [0])] none none).table,
      get_utility (mkUtastarResult [("a", ⟨0, 2, 2⟩)] [1/2, 1/2] [[1, 1], [0, 0]]
        [0, 0, 0, 0] [(1, [2]), (2, [0])] none none) e.1.2 = .ok e.2 := by
  have halign : List.Forall₂ (fun (row : TableRow) (alt : List ℚ) =>
      rowBasis (([("a", (⟨0, 2, 2⟩ : Interval))]).map Prod.snd) row.2 = .ok alt)
      [((1 : ℚ), [(2 : ℚ)]), ((2 : ℚ), [(0 : ℚ)])] [[1, 1], [0, 0]] :=
    List.Forall₂.cons rowBasis_sample_best
      (List.Forall₂.cons rowBasis_sample_worst List.Forall₂.nil)
  exact ⟨rfl, halign,
    C4_round_trip [("a", ⟨0, 2, 2⟩)] [1/2, 1/2] [[1, 1], [0, 0]] [0, 0, 0, 0]
      [(1, [2]), (2, [0])] none none rfl halign⟩

/-! ### Primary LP assembly -/

/-- Row difference `alternatives[i] - alternatives[i+1]` (numpy vector
subtraction). -/
def vsub (a b : List ℚ) : List ℚ := List.zipWith (· - ·) a b

/-- The successive-difference matrix `D`:
`differences[i] = alternatives[i] - alternatives[i+1]`. -/
def diffRows : List (List ℚ) → List (List ℚ)
  | a :: b :: rest => vsub a b :: diffRows (b :: rest)
  | _ => []

/-- Row `i` of the error block `E` (shape `(M-1) × 2M`): `+1, -1, -1, +1`
at columns `2i, 2i+1, 2i+2, 2i+3`, zeros elsewhere. -/
def errRow (M i : ℕ) : List ℚ :=
  List.ofFn fun j : Fin (2 * M) =>
    if (j : ℕ) = 2 * i then 1
    else if (j : ℕ) = 2 * i + 1 then -1
    else if (j : ℕ) = 2 * i + 2 then -1
    else if (j : ℕ) = 2 * i + 3 then 1
    else 0

/-- Source `lp_constraints = np.concatenate((differences, error_array), axis=1)`:
each difference row extended by its error row. -/
def constraintRows (alts : List (List ℚ)) : List (List ℚ) :=
  (diffRows alts).enum.map fun p => p.2 ++ errRow alts.length p.1

/-- The split of constraint rows into inequality (strict rank) and
equality (tied rank) parts, with their right-hand sides, as in the loop
`if multicrit_tbl.iat[i, 0] < multicrit_tbl.iat[i + 1, 0]: ... else ...`.
Returns `(A_ub, b_ub, A_eq, b_eq)` before negation and before the
sum-to-one row is appended. -/
def buildUbEq (delta : ℚ) : List ℚ → List (List ℚ) →
    List (List ℚ) × List ℚ × List (List ℚ) × List ℚ
  | r1 :: r2 :: rs, row :: rest =>
    let t := buildUbEq delta (r2 :: rs) rest
    if r1 < r2 then (row :: t.1, delta :: t.2.1, t.2.2.1, t.2.2.2)
    else (t.1, t.2.1, row :: t.2.2.1, (0 : ℚ) :: t.2.2.2)
  | _, _ => ([], [], [], [])

/-- The data handed to the LP solver:
`linprog(c, A_ub, b_ub, A_eq, b_eq)`. -/
structure LPData where
  c : List ℚ
  A_ub : List (List ℚ)
  b_ub : List ℚ
  A_eq : List (List ℚ)
  b_eq : List ℚ
deriving DecidableEq

/-- Elementwise negation of a constraint row (numpy unary minus). -/
def negRow (r : List ℚ) : List ℚ := r.map fun q => -q

/-- Assembly of the primary LP: split rows by rank comparison, append the
sum-to-one equality (`[1]*T ++ [0]*2M`, right-hand side 1), build the
objective `[0]*T ++ [1]*2M`, and negate `A_ub`/`b_ub` to turn the `≥`
inequalities into the solver's `≤` form.  `T` stands for
`sum(a_split.values())` in the source. -/
def primaryLP (ranks : List ℚ) (alts : List (List ℚ)) (T : ℕ) (delta : ℚ) : LPData :=
  let t := buildUbEq delta ranks (constraintRows alts)
  { c := List.replicate T 0 ++ List.replicate (2 * alts.length) 1
    A_ub := t.1.map negRow
    b_ub := t.2.1.map fun q => -q
    A_eq := t.2.2.1 ++ [List.replicate T 1 ++ List.replicate (2 * alts.length) 0]
    b_eq := t.2.2.2 ++ [1] }

/-- The successive rank pairs `(rank i, rank i+1)` scanned by the
constraint-splitting loop (specification-side description used to state
C2). -/
def adjPairs : List ℚ → List (ℚ × ℚ)
  | r1 :: r2 :: rs => (r1, r2) :: adjPairs (r2 :: rs)
  | _ => []

theorem buildUbEq_spec (delta : ℚ) : ∀ (ranks : List ℚ) (rows : List (List ℚ)),
    buildUbEq delta ranks rows =
      (((adjPairs ranks).zip rows).filterMap
          (fun p => if p.1.1 < p.1.2 then some p.2 else none),
       ((adjPairs ranks).zip rows).filterMap
          (fun p => if p.1.1 < p.1.2 then some delta else none),
       ((adjPairs ranks).zip rows).filterMap
          (fun p => if p.1.1 < p.1.2 then none else some p.2),
       ((adjPairs ranks).zip rows).filterMap
          (fun p => if p.1.1 < p.1.2 then none else some (0 : ℚ))) := by
  intro ranks
  induction ranks with
  | nil => intro rows; rfl
  | cons r1 tail ih =>
    intro rows
    cases tail with
    | nil => rfl
    | cons r2 rs =>
      cases rows with
      | nil => rfl
      | cons row rest =>
        simp only [buildUbEq, adjPairs, List.zip_cons_cons, List.filterMap_cons]
        rw [ih rest]
        by_cases h : r1 < r2
        · simp [h]
        · simp [h]

theorem sel_const_pos (k : ℚ) : ∀ (l : List ((ℚ × ℚ) × List ℚ)),
    l.filterMap (fun p => if p.1.1 < p.1.2 then some k else none) =
      List.replicate
        (l.filterMap (fun p => if p.1.1 < p.1.2 then some p.2 else none)).length k := by
  intro l
  induction l with
  | nil => rfl
  | cons x xs ih =>
    by_cases h : x.1.1 < x.1.2
    · simp [List.filterMap_cons, h, ih, List.replicate_succ]
    · simp [List.filterMap_cons, h, ih]

theorem sel_const_neg (k : ℚ) : ∀ (l : List ((ℚ × ℚ) × List ℚ)),
    l.filterMap (fun p => if p.1.1 < p.1.2 then none else some k) =
      List.replicate
        (l.filterMap (fun p => if p.1.1 < p.1.2 then none else some p.2)).length k := by
  intro l
  induction l with
  | nil => rfl
  | cons x xs ih =>
    by_cases h : x.1.1 < x.1.2
    · simp [List.filterMap_cons, h, ih]
    · simp [List.filterMap_cons, h, ih, List.replicate_succ]

/-- C2: in the primary LP, each successive pair with strictly smaller rank
contributes its difference-plus-error constraint row as an inequality with
right-hand side `delta`, each tied pair contributes it as an equality with
right-hand side 0, one extra appended equality puts coefficient 1 on the
first `T` coordinates and 0 on the `2M` error coordinates with right-hand
side 1, the objective has 0s on the first `T` and 1s on the last `2M`
positions, and every `≥` inequality is passed to the solver negated
(`A_ub` rows and `b_ub` entries multiplied by `-1`). -/
theorem C2_primary_lp_assembly (ranks : List ℚ) (alts : List (List ℚ)) (T : ℕ)
    (delta : ℚ) :
    (primaryLP ranks alts T delta).A_ub =
      (((adjPairs ranks).zip (constraintRows alts)).filterMap
        (fun p => if p.1.1 < p.1.2 then some p.2 else none)).map negRow ∧
    (primaryLP ranks alts T delta).b_ub =
      List.replicate (((adjPairs ranks).zip (constraintRows alts)).filterMap
        (fun p => if p.1.1 < p.1.2 then some p.2 else none)).length (-delta) ∧
    (primaryLP ranks alts T delta).A_eq =
      ((adjPairs ranks).zip (constraintRows alts)).filterMap
        (fun p => if p.1.1 < p.1.2 then none else some p.2) ++
        [List.replicate T 1 ++ List.replicate (2 * alts.length) 0] ∧
    (primaryLP ranks alts T delta).b_eq =
      List.replicate (((adjPairs ranks).zip (constraintRows alts)).filterMap
        (fun p => if p.1.1 < p.1.2 then none else some p.2)).length 0 ++ [1] ∧
    (primaryLP ranks alts T delta).c =
      List.replicate T 0 ++ List.replicate (2 * alts.length) 1 := by
  refine ⟨?_, ?_, ?_, ?_, ?_⟩
  · simp only [primaryLP, buildUbEq_spec delta ranks (constraintRows alts)]
  · simp only [primaryLP, buildUbEq_spec delta ranks (constraintRows alts)]
    rw [sel_const_pos delta, List.map_replicate]
  · simp only [primaryLP, buildUbEq_spec delta ranks (constraintRows alts)]
  · simp only [primaryLP, buildUbEq_spec delta ranks (constraintRows alts)]
    rw [sel_const_neg 0]
  · rfl

/-! ### Post-optimality phase -/

/-- The absolute tolerance of `np.isclose(lp_res.fun, 0)` (numpy defaults:
`atol = 1e-8`; the relative term `rtol * |0|` vanishes). -/
def npAtol : ℚ := 1 / 100000000

/-- Source `Criteria.weight_array(name)`: concatenation over the criteria of
`w() = [1]*N` for the named criterion and `e() = [0]*N` for the others. -/
def weight_array (criteria : List (String × Interval)) (name : String) : List ℚ :=
  (criteria.map fun c =>
    if c.1 = name then List.replicate c.2.N (1 : ℚ) else List.replicate c.2.N 0).flatten

/-- Assembly of one post-optimality (secondary) LP.  The source rebuilds
`error_array` as `np.zeros(...)` WITHOUT refilling the `±1` pattern, so
the secondary constraint rows carry all-zero error blocks; the extra
inequality `[0]*T ++ [-1]*2M ≥ -(F* + epsilon)` keeps the error sum within
epsilon of the primary optimum; the objective is the negated criterion
indicator (maximization as minimization); `A_ub`, `b_ub` and `c` are
negated before the solver call. -/
def secondaryLP (ranks : List ℚ) (alts : List (List ℚ)) (T : ℕ)
    (delta epsilon F : ℚ) (cw : List ℚ) : LPData :=
  let M := alts.length
  let rows0 := (diffRows alts).map fun d => d ++ List.replicate (2 * M) 0
  let t := buildUbEq delta ranks rows0
  { c := (cw ++ List.replicate (2 * M) 0).map fun q => -q
    A_ub := (t.1 ++ [List.replicate T 0 ++ List.replicate (2 * M) (-1)]).map negRow
    b_ub := (t.2.1 ++ [-(F + epsilon)]).map fun q => -q
    A_eq := t.2.2.1 ++ [List.replicate T 1 ++ List.replicate (2 * M) 0]
    b_eq := t.2.2.2 ++ [1] }

/-- numpy column sums of a list of equal-length row vectors. -/
def sumVecs : List (List ℚ) → List ℚ
  | [] => []
  | [x] => x
  | x :: y :: rest => List.zipWith (· + ·) x (sumVecs (y :: rest))

/-- Embedding of `np.average(xs, axis=0)`: elementwise mean over the rows. -/
def avgVecs (xs : List (List ℚ)) : List ℚ :=
  (sumVecs xs).map fun q => q / (xs.length : ℚ)

/-- The post-optimality loop over the criteria: solve one secondary LP per
criterion (objective: that criterion's total weight) and keep the primal
vectors of the successful solves only (`if res.success:
results.append(res)`; failures are logged and skipped). -/
def secondarySols (solver : LPData → Option (List ℚ × ℚ))
    (criteria : List (String × Interval)) (ranks : List ℚ) (alts : List (List ℚ))
    (T : ℕ) (delta epsilon F : ℚ) : List (List ℚ) :=
  criteria.filterMap fun c =>
    (solver (secondaryLP ranks alts T delta epsilon F (weight_array criteria c.1))).map
      Prod.fst

/-- The solving phase of `utastar()` (from the `linprog` call on), with
the LP solver as an oracle returning `(x, fun)` on success.  A primary
failure raises `LinearProgramError`.  If the primary optimum is
numerically zero (`np.isclose(lp_res.fun, 0)`) the secondary LPs are
solved, their w-parts and error-parts averaged, and `first_sol`/`sa_sol`
recorded; with no successful secondary solution the numpy slicing
`np.array([])[:, :T]` raises `IndexError`.  Otherwise the primary `x` is
sliced into the final w and errors.  `sorted` is the table already sorted
by rank; `T` is `sum(a_split.values())`. -/
def utastarCore (solver : LPData → Option (List ℚ × ℚ))
    (criteria : List (String × Interval)) (sorted : List TableRow)
    (alts : List (List ℚ)) (T : ℕ) (delta epsilon : ℚ) :
    Except PyError UtastarResult :=
  match solver (primaryLP (sorted.map Prod.fst) alts T delta) with
  | none => .error .linearProgramError
  | some (x, F) =>
    if |F| ≤ npAtol then
      let xs := secondarySols solver criteria (sorted.map Prod.fst) alts T delta epsilon F
      if xs.isEmpty then .error .indexError
      else
        .ok (mkUtastarResult criteria (avgVecs (xs.map (List.take T))) alts
          (avgVecs (xs.map (List.drop T))) sorted
          (some (x.take T, x.drop T))
          (some (xs.map (List.take T), xs.map (List.drop T))))
    else
      .ok (mkUtastarResult criteria (x.take T) alts (x.drop T) sorted none none)

theorem filterMap_isSome_length {α β : Type} (f : α → Option β) :
    ∀ (l : List α), (∀ a ∈ l, (f a).isSome) → (l.filterMap f).length = l.length := by
  intro l
  induction l with
  | nil => intro _; rfl
  | cons a l ih =>
    intro h
    have ha := h a (List.mem_cons_self a l)
    rcases Option.isSome_iff_exists.mp ha with ⟨b, hb⟩
    rw [List.filterMap_cons, hb]
    simp only [List.length_cons]
    rw [ih fun x hx => h x (List.mem_cons_of_mem a hx)]

/-! ### Claims C3, C6 : the post-optimality branch -/

/-- C3: when the primary LP succeeds, if its optimal value `F*` is
numerically zero (within the `np.isclose` tolerance) then — provided the
secondary solves succeed — one secondary LP is solved per criterion, the
final w and errors are the elementwise averages of the collected secondary
w-vectors and error-vectors, and the Result carries `first_sol` (the
unaveraged primary solution, split into w-part and error-part) and
`sa_sol` (the secondary solutions); if `F*` is not near zero, the primary
LP's w and errors are final and `first_sol`/`sa_sol` are absent. -/
theorem C3_postoptimality_branch (solver : LPData → Option (List ℚ × ℚ))
    (criteria : List (String × Interval)) (sorted : List TableRow)
    (alts : List (List ℚ)) (T : ℕ) (delta epsilon : ℚ) (x : List ℚ) (F : ℚ)
    (hp : solver (primaryLP (sorted.map Prod.fst) alts T delta) = some (x, F))
    (hc : criteria ≠ []) :
    (|F| ≤ npAtol →
      (∀ c ∈ criteria,
        (solver (secondaryLP (sorted.map Prod.fst) alts T delta epsilon F
          (weight_array criteria c.1))).isSome) →
      (secondarySols solver criteria (sorted.map Prod.fst) alts T delta epsilon
          F).length = criteria.length ∧
      utastarCore solver criteria sorted alts T delta epsilon =
        .ok (mkUtastarResult criteria
          (avgVecs ((secondarySols solver criteria (sorted.map Prod.fst) alts T delta
            epsilon F).map (List.take T)))
          alts
          (avgVecs ((secondarySols solver criteria (sorted.map Prod.fst) alts T delta
            epsilon F).map (List.drop T)))
          sorted
          (some (x.take T, x.drop T))
          (some ((secondarySols solver criteria (sorted.map Prod.fst) alts T delta
              epsilon F).map (List.take T),
            (secondarySols solver criteria (sorted.map Prod.fst) alts T delta
              epsilon F).map (List.drop T))))) ∧
    (¬ |F| ≤ npAtol →
      utastarCore solver criteria sorted alts T delta epsilon =
        .ok (mkUtastarResult criteria (x.take T) alts (x.drop T) sorted none none)) := by
  constructor
  · intro hz hall
    have hlen : (secondarySols solver criteria (sorted.map Prod.fst) alts T delta
        epsilon F).length = criteria.length :=
      filterMap_isSome_length _ criteria fun c hmem => by
        have h := hall c hmem
        rcases Option.isSome_iff_exists.mp h with ⟨b, hb⟩
        rw [hb]
        rfl
    refine ⟨hlen, ?_⟩
    have hne : ¬ (secondarySols solver criteria (sorted.map Prod.fst) alts T delta
        epsilon F).isEmpty = true := by
      rw [List.isEmpty_iff]
      intro hnil
      rw [hnil] at hlen
      exact hc (List.length_eq_zero.mp hlen.symm)
    unfold utastarCore
    rw [hp]
    simp only [if_pos hz, if_neg hne]
  · intro hz
    unfold utastarCore
    rw [hp]
    simp only [if_neg hz]

/-- C6 (amended): inside the post-optimality phase a secondary-LP failure
is non-fatal — the failing criterion's vector is omitted and the final w
and errors average only the successful secondary solutions; but when EVERY
secondary LP fails, the run raises `IndexError` (from slicing the empty
`np.array([])`) instead of falling back to the primary LP's x. -/
theorem C6_secondary_failures (solver : LPData → Option (List ℚ × ℚ))
    (criteria : List (String × Interval)) (sorted : List TableRow)
    (alts : List (List ℚ)) (T : ℕ) (delta epsilon : ℚ) (x : List ℚ) (F : ℚ)
    (hp : solver (primaryLP (sorted.map Prod.fst) alts T delta) = some (x, F))
    (hz : |F| ≤ npAtol) :
    ((secondarySols solver criteria (sorted.map Prod.fst) alts T delta epsilon F) ≠ [] →
      utastarCore solver criteria sorted alts T delta epsilon =
        .ok (mkUtastarResult criteria
          (avgVecs ((secondarySols solver criteria (sorted.map Prod.fst) alts T delta
            epsilon F).map (List.take T)))
          alts
          (avgVecs ((secondarySols solver criteria (sorted.map Prod.fst) alts T delta
            epsilon F).map (List.drop T)))
          sorted
          (some (x.take T, x.drop T))
          (some ((secondarySols solver criteria (sorted.map Prod.fst) alts T delta
              epsilon F).map (List.take T),
            (secondarySols solver criteria (sorted.map Prod.fst) alts T delta
              epsilon F).map (List.drop T))))) ∧
    ((secondarySols solver criteria (sorted.map Prod.fst) alts T delta epsilon F) = [] →
      utastarCore solver criteria sorted alts T delta epsilon = .error .indexError) := by
  constructor
  · intro hne
    have hne' : ¬ (secondarySols solver criteria (sorted.map Prod.fst) alts T delta
        epsilon F).isEmpty = true := by
      rw [List.isEmpty_iff]
      exact hne
    unfold utastarCore
    rw [hp]
    simp only [if_pos hz, if_neg hne']
  · intro hnil
    have hemp : (secondarySols solver criteria (sorted.map Prod.fst) alts T delta
        epsilon F).isEmpty = true := by
      rw [List.isEmpty_iff]
      exact hnil
    unfold utastarCore
    rw [hp]
    simp only [if_pos hz, if_pos hemp]

/-! ### Concrete sample runs for the post-optimality claims -/

/-- Sample table (already sorted by rank): two alternatives, ranks 1 and 2. -/
def tbl1 : List TableRow := [(1, [2]), (2, [0])]

/-- Basis rows of the sample alternatives for one criterion split in two. -/
def alts1 : List (List ℚ) := [[1, 1], [0, 0]]

/-- Sample criteria set: one criterion over `[0, 2]` with 2 subintervals. -/
def crit1 : List (String × Interval) := [("a", ⟨0, 2, 2⟩)]

/-- A solver oracle that answers the primary LP (recognized by its single
`A_ub` row) with optimum 0 and any secondary LP with a different vector. -/
def oracleA : LPData → Option (List ℚ × ℚ) := fun lp =>
  if lp.A_ub.length = 1 then some ([1/2, 1/2, 0, 0, 0, 0], 0)
  else some ([1/4, 3/4, 0, 0, 0, 0], 0)

/-- A solver oracle that solves the primary LP but fails every secondary
LP. -/
def oracleB : LPData → Option (List ℚ × ℚ) := fun lp =>
  if lp.A_ub.length = 1 then some ([1/2, 1/2, 0, 0, 0, 0], 0) else none

theorem oracleA_isSome (lp : LPData) : (oracleA lp).isSome = true := by
  unfold oracleA
  split <;> rfl

theorem primary1_A_ub_len : (primaryLP (tbl1.map Prod.fst) alts1 2 (1/20)).A_ub.length = 1 := by
  norm_num [primaryLP, buildUbEq_spec, adjPairs, constraintRows, diffRows, vsub,
    tbl1, alts1, List.enum, List.enumFrom, List.filterMap_cons]

theorem oracleA_primary1 :
    oracleA (primaryLP (tbl1.map Prod.fst) alts1 2 (1/20)) =
      some ([1/2, 1/2, 0, 0, 0, 0], 0) := by
  unfold oracleA
  rw [if_pos primary1_A_ub_len]

theorem secondary1_A_ub_len :
    (secondaryLP (tbl1.map Prod.fst) alts1 2 (1/20) (1/100) 0
      (weight_array crit1 "a")).A_ub.length = 2 := by
  norm_num [secondaryLP, buildUbEq_spec, adjPairs, diffRows, vsub, tbl1, alts1,
    List.filterMap_cons]

theorem oracleA_secondary1 :
    oracleA (secondaryLP (tbl1.map Prod.fst) alts1 2 (1/20) (1/100) 0
      (weight_array crit1 "a")) = some ([1/4, 3/4, 0, 0, 0, 0], 0) := by
  unfold oracleA
  rw [if_neg]
  rw [secondary1_A_ub_len]
  norm_num

theorem oracleB_primary1 :
    oracleB (primaryLP (tbl1.map Prod.fst) alts1 2 (1/20)) =
      some ([1/2, 1/2, 0, 0, 0, 0], 0) := by
  unfold oracleB
  rw [if_pos primary1_A_ub_len]

theorem oracleB_secondary1 :
    oracleB (secondaryLP (tbl1.map Prod.fst) alts1 2 (1/20) (1/100) 0
      (weight_array crit1 "a")) = none := by
  unfold oracleB
  rw [if_neg]
  rw [secondary1_A_ub_len]
  norm_num

theorem secondarySols_oracleA :
    secondarySols oracleA crit1 (tbl1.map Prod.fst) alts1 2 (1/20) (1/100) 0 =
      [[1/4, 3/4, 0, 0, 0, 0]] := by
  have h := oracleA_secondary1
  simp only [crit1] at h ⊢
  simp only [secondarySols, List.filterMap_cons, List.filterMap_nil, h, Option.map_some']

theorem secondarySols_oracleB :
    secondarySols oracleB crit1 (tbl1.map Prod.fst) alts1 2 (1/20) (1/100) 0 = [] := by
  have h := oracleB_secondary1
  simp only [crit1] at h ⊢
  simp only [secondarySols, List.filterMap_cons, List.filterMap_nil, h, Option.map_none']

theorem C3_postoptimality_branch_witness :
    oracleA (primaryLP (tbl1.map Prod.fst) alts1 2 (1/20)) =
      some ([1/2, 1/2, 0, 0, 0, 0], 0) ∧
    |(0 : ℚ)| ≤ npAtol ∧
    secondarySols oracleA crit1 (tbl1.map Prod.fst) alts1 2 (1/20) (1/100) 0 =
      [[1/4, 3/4, 0, 0, 0, 0]] ∧
    ((secondarySols oracleA crit1 (tbl1.map Prod.fst) alts1 2 (1/20) (1/100) 0).length =
        crit1.length ∧
      utastarCore oracleA crit1 tbl1 alts1 2 (1/20) (1/100) =
        .ok (mkUtastarResult crit1
          (avgVecs ((secondarySols oracleA crit1 (tbl1.map Prod.fst) alts1 2 (1/20)
            (1/100) 0).map (List.take 2)))
          alts1
          (avgVecs ((secondarySols oracleA crit1 (tbl1.map Prod.fst) alts1 2 (1/20)
            (1/100) 0).map (List.drop 2)))
          tbl1
          (some (([1/2, 1/2, 0, 0, 0, 0] : List ℚ).take 2,
            ([1/2, 1/2, 0, 0, 0, 0] : List ℚ).drop 2))
          (some ((secondarySols oracleA crit1 (tbl1.map Prod.fst) alts1 2 (1/20)
              (1/100) 0).map (List.take 2),
            (secondarySols oracleA crit1 (tbl1.map Prod.fst) alts1 2 (1/20)
              (1/100) 0).map (List.drop 2))))) := by
  refine ⟨oracleA_primary1, by norm_num [npAtol], secondarySols_oracleA, ?_⟩
  exact (C3_postoptimality_branch oracleA crit1 tbl1 alts1 2 (1/20) (1/100)
    [1/2, 1/2, 0, 0, 0, 0] 0 oracleA_primary1 (by simp [crit1])).1
    (by norm_num [npAtol]) (fun c _ => oracleA_isSome _)

/-- C6 counterexample: a run in which the primary LP is optimal at 0 but
every secondary LP fails.  The claim says the run falls back to the
primary LP's x; the code instead crashes — `np.array([])[:, :T]` raises
`IndexError` — so no Result is produced. -/
theorem C6_all_fail_counterexample :
    utastarCore oracleB crit1 tbl1 alts1 2 (1/20) (1/100) = .error .indexError := by
  unfold utastarCore
  rw [oracleB_primary1]
  simp only [if_pos (show |(0 : ℚ)| ≤ npAtol by norm_num [npAtol]), secondarySols_oracleB]
  rfl

/-- Sample table with two criteria columns. -/
def tbl2 : List TableRow := [(1, [2, 5]), (2, [0, 3])]

/-- Basis rows of the two sample alternatives over two one-subinterval
criteria. -/
def alts2 : List (List ℚ) := [[1, 1], [0, 0]]

/-- Two criteria, one subinterval each. -/
def crit2 : List (String × Interval) := [("a", ⟨0, 2, 1⟩), ("b", ⟨3, 5, 1⟩)]

/-- A solver oracle that answers the primary LP, answers the secondary LP
whose objective maximizes criterion "a" (recognized by the leading `-1`
of its negated objective), and fails the secondary LP for criterion "b". -/
def oracleC : LPData → Option (List ℚ × ℚ) := fun lp =>
  if lp.A_ub.length = 1 then some ([1/2, 1/2, 0, 0, 0, 0], 0)
  else if lp.c.headD 0 = -1 then some ([1, 0, 0, 0, 0, 0], 0)
  else none

theorem wa2_a : weight_array crit2 "a" = [1, 0] := rfl

theorem wa2_b : weight_array crit2 "b" = [0, 1] := rfl

theorem primary2_A_ub_len :
    (primaryLP (tbl2.map Prod.fst) alts2 2 (1/20)).A_ub.length = 1 := by
  norm_num [primaryLP, buildUbEq_spec, adjPairs, constraintRows, diffRows, vsub,
    tbl2, alts2, List.enum, List.enumFrom, List.filterMap_cons]

theorem oracleC_primary2 :
    oracleC (primaryLP (tbl2.map Prod.fst) alts2 2 (1/20)) =
      some ([1/2, 1/2, 0, 0, 0, 0], 0) := by
  unfold oracleC
  rw [if_pos primary2_A_ub_len]

theorem secondary2a_A_ub_len :
    (secondaryLP (tbl2.map Prod.fst) alts2 2 (1/20) (1/100) 0
      (weight_array crit2 "a")).A_ub.length = 2 := by
  norm_num [secondaryLP, buildUbEq_spec, adjPairs, diffRows, vsub, tbl2, alts2,
    List.filterMap_cons]

theorem secondary2b_A_ub_len :
    (secondaryLP (tbl2.map Prod.fst) alts2 2 (1/20) (1/100) 0
      (weight_array crit2 "b")).A_ub.length = 2 := by
  norm_num [secondaryLP, buildUbEq_spec, adjPairs, diffRows, vsub, tbl2, alts2,
    List.filterMap_cons]

theorem secondary2a_c_head :
    (secondaryLP (tbl2.map Prod.fst) alts2 2 (1/20) (1/100) 0
      (weight_array crit2 "a")).c.headD 0 = -1 := rfl

theorem oracleC_secondary2a :
    oracleC (secondaryLP (tbl2.map Prod.fst) alts2 2 (1/20) (1/100) 0
      (weight_array crit2 "a")) = some ([1, 0, 0, 0, 0, 0], 0) := by
  unfold oracleC
  rw [if_neg, if_pos secondary2a_c_head]
  rw [secondary2a_A_ub_len]
  norm_num

theorem oracleC_secondary2b :
    oracleC (secondaryLP (tbl2.map Prod.fst) alts2 2 (1/20) (1/100) 0
      (weight_array crit2 "b")) = none := by
  unfold oracleC
  rw [if_neg, if_neg]
  · rw [show (secondaryLP (tbl2.map Prod.fst) alts2 2 (1/20) (1/100) 0
      (weight_array crit2 "b")).c.headD 0 = -(0 : ℚ) from rfl]
    norm_num
  · rw [secondary2b_A_ub_len]
    norm_num

theorem secondarySols_oracleC :
    secondarySols oracleC crit2 (tbl2.map Prod.fst) alts2 2 (1/20) (1/100) 0 =
      [[1, 0, 0, 0, 0, 0]] := by
  have ha := oracleC_secondary2a
  have hb := oracleC_secondary2b
  simp only [crit2] at ha hb ⊢
  simp only [secondarySols, List.filterMap_cons, List.filterMap_nil, ha, hb,
    Option.map_some', Option.map_none']

theorem C6_secondary_failures_witness :
    oracleC (primaryLP (tbl2.map Prod.fst) alts2 2 (1/20)) =
      some ([1/2, 1/2, 0, 0, 0, 0], 0) ∧
    |(0 : ℚ)| ≤ npAtol ∧
    secondarySols oracleC crit2 (tbl2.map Prod.fst) alts2 2 (1/20) (1/100) 0 =
      [[1, 0, 0, 0, 0, 0]] ∧
    utastarCore oracleC crit2 tbl2 alts2 2 (1/20) (1/100) =
      .ok (mkUtastarResult crit2
        (avgVecs ((secondarySols oracleC crit2 (tbl2.map Prod.fst) alts2 2 (1/20)
          (1/100) 0).map (List.take 2)))
        alts2
        (avgVecs ((secondarySols oracleC crit2 (tbl2.map Prod.fst) alts2 2 (1/20)
          (1/100) 0).map (List.drop 2)))
        tbl2
        (some (([1/2, 1/2, 0, 0, 0, 0] : List ℚ).take 2,
          ([1/2, 1/2, 0, 0, 0, 0] : List ℚ).drop 2))
        (some ((secondarySols oracleC crit2 (tbl2.map Prod.fst) alts2 2 (1/20)
            (1/100) 0).map (List.take 2),
          (secondarySols oracleC crit2 (tbl2.map Prod.fst) alts2 2 (1/20)
            (1/100) 0).map (List.drop 2)))) := by
  refine ⟨oracleC_primary2, by norm_num [npAtol], secondarySols_oracleC, ?_⟩
  exact (C6_secondary_failures oracleC crit2 tbl2 alts2 2 (1/20) (1/100)
    [1/2, 1/2, 0, 0, 0, 0] 0 oracleC_primary2 (by norm_num [npAtol])).1
    (by rw [secondarySols_oracleC]; simp)

/-! ### The `utastar()` entry point -/

/-- Column minimum (`crit_values.agg(["min", "max"])`). -/
def listMin (l : List ℚ) : ℚ := l.foldl min (l.headD 0)

/-- Column maximum. -/
def listMax (l : List ℚ) : ℚ := l.foldl max (l.headD 0)

/-- Source `Interval.__init__` validation: `num_of_subintervals` must be positive
(else `ValueError`; a non-integer count would raise `TypeError`, excluded
here by the type). -/
def mkInterval (l r : ℚ) (n : ℤ) : Except PyError Interval :=
  if 0 < n then .ok ⟨l, r, n.toNat⟩ else .error .valueError

/-- The criteria-building loop of `utastar()`: for each criterion column
in table order, if the column name is present in BOTH the monotonicity and
the splits mapping, build its Criterion (ascending monotonicity:
`Interval(min, max, n)`; descending: `Interval(max, min, n)`); otherwise
the column is silently skipped (the source's
`if criterion in crit_monot and criterion in a_split:` has no else
branch and no error). -/
def buildCriteria : List (String × List ℚ) → List (String × Bool) → List (String × ℤ) →
    Except PyError (List (String × Interval))
  | [], _, _ => .ok []
  | (c, vals) :: rest, monot, split =>
    match List.lookup c monot, List.lookup c split with
    | some b, some n =>
      match mkInterval (if b then listMin vals else listMax vals)
          (if b then listMax vals else listMin vals) n with
      | .error e => .error e
      | .ok iv =>
        match buildCriteria rest monot split with
        | .error e => .error e
        | .ok tail => .ok ((c, iv) :: tail)
    | _, _ => buildCriteria rest monot split

/-- The criterion columns of the sorted table, each paired with its value
column (`crit_values = multicrit_tbl.iloc[:, 1:]`). -/
def colCands (cols : List String) (sorted : List TableRow) : List (String × List ℚ) :=
  cols.enum.map fun p => (p.2, sorted.map fun r => r.2.getD p.1 0)

/-- Insertion step of sorting the input table by rank ascending
(`multicrit_tbl.sort_values(multicrit_tbl.columns[0], ascending=True)`). -/
def insertRank (x : TableRow) : List TableRow → List TableRow
  | [] => [x]
  | y :: ys => if x.1 ≤ y.1 then x :: y :: ys else y :: insertRank x ys

/-- Sort the input table by rank ascending. -/
def sortByRank : List TableRow → List TableRow
  | [] => []
  | x :: xs => insertRank x (sortByRank xs)

/-- Source `utastar()` end to end: sort by rank, build the criteria (silently
dropping unknown columns, raising `ValueError` on a non-positive split),
build the alternatives' basis rows (zip truncation as in Python), then
run the LP phase.  `T = sum(a_split.values())` is taken over the whole
splits mapping, as in the source. -/
def utastarRun (solver : LPData → Option (List ℚ × ℚ)) (tbl : List TableRow)
    (cols : List String) (monot : List (String × Bool)) (split : List (String × ℤ))
    (delta epsilon : ℚ) : Except PyError UtastarResult :=
  let sorted := sortByRank tbl
  match buildCriteria (colCands cols sorted) monot split with
  | .error e => .error e
  | .ok criteria =>
    match sorted.mapM (fun r => rowBasis (criteria.map Prod.snd) r.2) with
    | .error e => .error e
    | .ok alts =>
      utastarCore solver criteria sorted alts ((split.map Prod.snd).sum).toNat
        delta epsilon

theorem buildCriteria_ok_names :
    ∀ (cands : List (String × List ℚ)) (monot : List (String × Bool))
      (split : List (String × ℤ)) (res : List (String × Interval)),
      buildCriteria cands monot split = .ok res →
      res.map Prod.fst = (cands.map Prod.fst).filter
        (fun c => ((List.lookup c monot).isSome && (List.lookup c split).isSome)) := by
  intro cands
  induction cands with
  | nil =>
    intro monot split res h
    simp only [buildCriteria] at h
    cases h
    rfl
  | cons p rest ih =>
    intro monot split res h
    obtain ⟨c, vals⟩ := p
    rcases hlm : List.lookup c monot with _ | b <;>
      rcases hls : List.lookup c split with _ | n <;>
      simp only [buildCriteria, hlm, hls] at h <;>
      simp only [List.map_cons, List.filter_cons, hlm, hls, Option.isSome_some,
        Option.isSome_none, Bool.false_and, Bool.and_false, Bool.true_and,
        Bool.and_true]
    · exact ih monot split res h
    · exact ih monot split res h
    · exact ih monot split res h
    · rcases hmi : mkInterval (if b then listMin vals else listMax vals)
          (if b then listMax vals else listMin vals) n with e | iv <;>
        rw [hmi] at h
      · cases h
      · rcases hbc : buildCriteria rest monot split with e | tail <;> rw [hbc] at h
        · cases h
        · cases h
          simp only [List.map_cons]
          rw [ih monot split tail hbc]
          simp

theorem buildCriteria_error :
    ∀ (cands : List (String × List ℚ)) (monot : List (String × Bool))
      (split : List (String × ℤ)) (e : PyError),
      buildCriteria cands monot split = .error e →
      e = .valueError ∧
        ∃ c ∈ cands.map Prod.fst, ∃ n, List.lookup c split = some n ∧ n ≤ 0 := by
  intro cands
  induction cands with
  | nil =>
    intro monot split e h
    simp only [buildCriteria] at h
    cases h
  | cons p rest ih =>
    intro monot split e h
    obtain ⟨c, vals⟩ := p
    rcases hlm : List.lookup c monot with _ | b <;>
      rcases hls : List.lookup c split with _ | n <;>
      simp only [buildCriteria, hlm, hls] at h
    · obtain ⟨he, c', hc', hrest⟩ := ih monot split e h
      exact ⟨he, c', List.mem_cons_of_mem _ hc', hrest⟩
    · obtain ⟨he, c', hc', hrest⟩ := ih monot split e h
      exact ⟨he, c', List.mem_cons_of_mem _ hc', hrest⟩
    · obtain ⟨he, c', hc', hrest⟩ := ih monot split e h
      exact ⟨he, c', List.mem_cons_of_mem _ hc', hrest⟩
    · by_cases hn : (0 : ℤ) < n
      · simp only [mkInterval, if_pos hn] at h
        rcases hbc : buildCriteria rest monot split with e' | tail <;> rw [hbc] at h
        · cases h
          obtain ⟨he, c', hc', hrest⟩ := ih monot split e hbc
          exact ⟨he, c', List.mem_cons_of_mem _ hc', hrest⟩
        · cases h
      · simp only [mkInterval, if_neg hn] at h
        cases h
        exact ⟨rfl, c, List.mem_cons_self _ _, n, hls, by omega⟩

theorem utastarRun_buildCriteria_error (solver : LPData → Option (List ℚ × ℚ))
    (tbl : List TableRow) (cols : List String) (monot : List (String × Bool))
    (split : List (String × ℤ)) (delta epsilon : ℚ) (e : PyError)
    (h : buildCriteria (colCands cols (sortByRank tbl)) monot split = .error e) :
    utastarRun solver tbl cols monot split delta epsilon = .error e := by
  simp only [utastarRun]
  rw [h]

/-! ### Claim C7 : pre-LP validation -/

/-- C7 (amended): the source has no `InvalidConfig`.  A criterion column
missing from the monotonicity or splits mapping is silently dropped — the
criteria actually built are exactly the columns present in both mappings.
The only structural validation before the LP call is positivity of the
splits: `buildCriteria` can fail only with `ValueError` from a
non-positive split, and such a failure propagates out of `utastar()`
before any solver call (the run result is the same for every solver). -/
theorem C7_no_invalid_config (cands : List (String × List ℚ))
    (monot : List (String × Bool)) (split : List (String × ℤ)) :
    (∀ res, buildCriteria cands monot split = .ok res →
      res.map Prod.fst = (cands.map Prod.fst).filter
        (fun c => ((List.lookup c monot).isSome && (List.lookup c split).isSome))) ∧
    (∀ e, buildCriteria cands monot split = .error e →
      e = .valueError ∧
        ∃ c ∈ cands.map Prod.fst, ∃ n, List.lookup c split = some n ∧ n ≤ 0) ∧
    (∀ solver tbl cols delta epsilon e,
      buildCriteria (colCands cols (sortByRank tbl)) monot split = .error e →
      utastarRun solver tbl cols monot split delta epsilon = .error e) :=
  ⟨fun res h => buildCriteria_ok_names cands monot split res h,
   fun e h => buildCriteria_error cands monot split e h,
   fun solver tbl cols delta epsilon e h =>
     utastarRun_buildCriteria_error solver tbl cols monot split delta epsilon e h⟩

/-- Criterion columns of the sample table. -/
def cols1 : List String := ["a", "b"]

/-- Monotonicity mapping missing column "b". -/
def monot1 : List (String × Bool) := [("a", true)]

/-- Splits mapping missing column "b". -/
def split1 : List (String × ℤ) := [("a", 2)]

/-- Splits mapping with a non-positive split for "a". -/
def split0 : List (String × ℤ) := [("a", 0)]

theorem sortByRank_tbl2 : sortByRank tbl2 = tbl2 := by
  norm_num [tbl2, sortByRank, insertRank]

theorem colCands_tbl2 : colCands cols1 tbl2 = [("a", [2, 0]), ("b", [5, 3])] := rfl

theorem listMin_sample : listMin [2, 0] = 0 := by
  norm_num [listMin, min_def]

theorem listMax_sample : listMax [2, 0] = 2 := by
  norm_num [listMax, max_def]

theorem buildCriteria_drop_b :
    buildCriteria [("a", [2, 0]), ("b", [5, 3])] monot1 split1 =
      .ok [("a", ⟨0, 2, 2⟩)] := by
  have h1 : List.lookup "a" monot1 = some true := rfl
  have h2 : List.lookup "a" split1 = some 2 := rfl
  have h3 : List.lookup "b" monot1 = none := rfl
  have h4 : List.lookup "b" split1 = none := rfl
  simp only [buildCriteria, h1, h2, h3, h4]
  norm_num [mkInterval, listMin_sample, listMax_sample]
  rfl

theorem rowBasis_row1 : rowBasis [(⟨0, 2, 2⟩ : Interval)] [2, 5] = .ok [1, 1] :=
  (rowBasis_cons _ [] _ [5] [1, 1] [] gv_sample_best rfl).trans rfl

theorem rowBasis_row2 : rowBasis [(⟨0, 2, 2⟩ : Interval)] [0, 3] = .ok [0, 0] :=
  (rowBasis_cons _ [] _ [3] [0, 0] [] gv_sample_worst rfl).trans rfl

theorem mapM_rowBasis_tbl2 :
    (sortByRank tbl2).mapM
      (fun r => rowBasis (([("a", (⟨0, 2, 2⟩ : Interval))]).map Prod.snd) r.2) =
      .ok [[1, 1], [0, 0]] := by
  rw [sortByRank_tbl2]
  simp only [tbl2, List.mapM_cons, List.mapM_nil, List.map_cons, List.map_nil,
    rowBasis_row1, rowBasis_row2]
  rfl

/-- C7 counterexample: on a table with criterion columns "a" and "b" where
"b" is missing from both the monotonicity and the splits mapping,
`utastar()` does NOT fail with any configuration error before the LP call:
it silently drops "b" (the built criteria contain only "a") and proceeds
all the way to the solver — with a failing solver the run surfaces
`LinearProgramError`, proving the solver was reached. -/
theorem C7_missing_criterion_counterexample :
    buildCriteria (colCands cols1 (sortByRank tbl2)) monot1 split1 =
      .ok [("a", ⟨0, 2, 2⟩)] ∧
    utastarRun (fun _ => none) tbl2 cols1 monot1 split1 (1/20) (1/100) =
      .error .linearProgramError := by
  have hbuild : buildCriteria (colCands cols1 (sortByRank tbl2)) monot1 split1 =
      .ok [("a", ⟨0, 2, 2⟩)] := by
    rw [sortByRank_tbl2, colCands_tbl2]
    exact buildCriteria_drop_b
  refine ⟨hbuild, ?_⟩
  simp only [utastarRun, hbuild, mapM_rowBasis_tbl2]
  rfl

theorem C7_no_invalid_config_witness :
    buildCriteria [("a", [2, 0]), ("b", [5, 3])] monot1 split1 =
      .ok [("a", ⟨0, 2, 2⟩)] ∧
    ([("a", (⟨0, 2, 2⟩ : Interval))]).map Prod.fst =
      (([("a", ([2, 0] : List ℚ)), ("b", [5, 3])]).map Prod.fst).filter
        (fun c => ((List.lookup c monot1).isSome && (List.lookup c split1).isSome)) ∧
    buildCriteria [("a", [2, 0])] monot1 split0 = .error .valueError ∧
    (PyError.valueError = PyError.valueError ∧
      ∃ c ∈ ([("a", ([2, 0] : List ℚ))]).map Prod.fst, ∃ n,
        List.lookup c split0 = some n ∧ n ≤ 0) ∧
    utastarRun (fun _ => none) tbl2 ["a"] monot1 split0 (1/20) (1/100) =
      .error .valueError := by
  have hbuild0 : buildCriteria [("a", [2, 0])] monot1 split0 = .error .valueError := rfl
  have hcands : colCands ["a"] (sortByRank tbl2) = [("a", [2, 0])] := by
    rw [sortByRank_tbl2]
    rfl
  refine ⟨buildCriteria_drop_b, ?_, hbuild0, ?_, ?_⟩
  · exact (C7_no_invalid_config [("a", [2, 0]), ("b", [5, 3])] monot1 split1).1 _
      buildCriteria_drop_b
  · exact (C7_no_invalid_config [("a", [2, 0])] monot1 split0).2.1 _ hbuild0
  · exact (C7_no_invalid_config [("a", [2, 0])] monot1 split0).2.2 (fun _ => none)
      tbl2 ["a"] (1/20) (1/100) .valueError (by rw [hcands]; exact hbuild0)

end Utastar
